import Mathlib

/-!
OpenAL Soft (gideros fork): backend drivers, the B-format decoder boundary and the optional
container.

A shallow embedding of `alc/backends/webaudio.cpp`, `alc/backends/xaudio2.cpp`,
`common/aloptional.h` and of the interface declared in `alc/bformatdec.h`.

Conventions of the embedding.

* `uint` fields are natural numbers; every store into one is reduced modulo `2^32`.
* A `double` is a rational number. `roundDouble` is the IEEE 754 binary64 rounding (to nearest,
  ties to even, gradual underflow); `tickD` applies it after every arithmetic operation of
  `tick()`, as the code does. `tick` is the same method with times taken as exact real numbers.
  No operation of `tick()` overflows on finite doubles, so the exponent range is not bounded
  above.
* A nullable pointer is an `Option`; `const char *name` is an `Option String`.
* The native services (the JavaScript `AudioContext`, the XAudio2 source voice, the
  device's render path) are records that log what the backend asked of them.
-/

namespace OpenALSoft

/-! ## Types shared by the backends -/

/-- Two to the thirty-two, the modulus of `uint` arithmetic. -/
def UINT_MOD : Nat := 4294967296

/-- Sample types of `core/devformat.h`; a value-initialised `DevFmtType{}` is the
first enumerator. -/
inductive DevFmtType where
  | DevFmtByte | DevFmtUByte | DevFmtShort | DevFmtUShort | DevFmtInt | DevFmtUInt | DevFmtFloat
  deriving DecidableEq, Repr

/-- Channel layouts of `core/devformat.h`; a value-initialised `DevFmtChannels{}` is the
first enumerator. -/
inductive DevFmtChannels where
  | DevFmtMono | DevFmtStereo | DevFmtQuad | DevFmtX51 | DevFmtX61 | DevFmtX71 | DevFmtAmbi3D
  deriving DecidableEq, Repr

/-- Stream directions a factory is asked about (`BackendType` of `backends/base.h`). -/
inductive BackendType where
  | Playback | Capture
  deriving DecidableEq, Repr

open DevFmtType DevFmtChannels

/-- The helpers of the engine that the backends call and whose code lies outside the two backend
files; they are parameters of the embedding. `BytesFromDevFmt` is the size in bytes of one sample
of a type, `ChannelsFromDevFmt` the channel count of a layout at an ambisonic order, and
`WFXChannelOrder` the channel order table that `setDefaultWFXChannelOrder` stores for a layout. -/
structure Core where
  BytesFromDevFmt : DevFmtType → Nat
  ChannelsFromDevFmt : DevFmtChannels → Nat → Nat
  WFXChannelOrder : DevFmtChannels → List Nat

/-- The part of the owning device record (`DeviceBase`) that the backends read and write.
`RealOutChannelIndex` is the channel order table written by `setDefaultWFXChannelOrder`;
`renderLog` records the calls of `renderSamples` (sample count, channel count), newest first. -/
structure DeviceBase where
  DeviceName : String
  Frequency : Nat
  FmtChans : DevFmtChannels
  FmtType : DevFmtType
  UpdateSize : Nat
  BufferSize : Nat
  mAmbiOrder : Nat
  RealOutChannelIndex : List Nat
  renderLog : List (Nat × Nat)
  deriving DecidableEq, Repr

/-- The call `mDevice->renderSamples(buffer, samples, channels)`: the device renders one block
into the caller's buffer. -/
def DeviceBase.renderSamples (d : DeviceBase) (samples channels : Nat) : DeviceBase :=
  { d with renderLog := (samples, channels) :: d.renderLog }

/-- Modelled from the spec: the number of bytes that `renderSamples(buffer, sampleCount,
channelCount)` writes into the caller's buffer, `sampleCount` frames of `channelCount` samples
of the device's sample type. The body of `renderSamples` is not among the sources. -/
def DeviceBase.renderedBytes (core : Core) (d : DeviceBase) (samples channels : Nat) : Nat :=
  samples * channels * core.BytesFromDevFmt d.FmtType

/-- The call `mDevice->channelsFromFmt()`. -/
def DeviceBase.channelsFromFmt (core : Core) (d : DeviceBase) : Nat :=
  core.ChannelsFromDevFmt d.FmtChans d.mAmbiOrder

/-- The call `setDefaultWFXChannelOrder()` of `BackendBase`: it stores the channel order that
belongs to the device's current `FmtChans`. -/
def setDefaultWFXChannelOrder (core : Core) (d : DeviceBase) : DeviceBase :=
  { d with RealOutChannelIndex := core.WFXChannelOrder d.FmtChans }

/-- The macro `DEVNAME_PREFIX`; `win32` says whether `_WIN32` is defined. -/
def DEVNAME_PREFIX (win32 : Bool) : String :=
  if win32 then "OpenAL Soft on " else ""

/-- The constant `defaultDeviceName` (without its terminating null character). -/
def defaultDeviceName (win32 : Bool) : String :=
  ( DEVNAME_PREFIX win32) ++ "Default Device"

/-! ## IEEE 754 binary64 arithmetic -/

/-- Round to the nearest integer, ties to the even one. -/
def roundHalfEven (t : ℚ) : ℤ :=
  let n := ⌊t⌋
  if t - n < 1/2 then n
  else if 1/2 < t - n then n + 1
  else if n % 2 = 0 then n else n + 1

/-- Exponent of the unit in the last place of the binary64 numbers around `x`: 52 below the
exponent of `x`, and never below that of the subnormal numbers. -/
def ulpExponent (x : ℚ) : ℤ :=
  max (Int.log 2 |x|) (-1022) - 52

/-- The binary64 number nearest to `x`, ties to even: what a `double` operation returns when its
exact result is `x`. -/
def roundDouble (x : ℚ) : ℚ :=
  (roundHalfEven (x / (2 : ℚ) ^ ulpExponent x) : ℚ) * (2 : ℚ) ^ ulpExponent x

/-! ## The WebAudio backend (`alc/backends/webaudio.cpp`) -/

/-- The macro `UPD_SIZE`. -/
def UPD_SIZE : Nat := 8192

/-- One `createBufferSource` handed to the audio service by `tick`: a stereo buffer of
`length` frames at `rate`, started at time `startAt`. -/
structure BufferSource where
  channels : Nat
  length : Nat
  rate : Nat
  startAt : ℚ
  deriving DecidableEq

/-- The JavaScript global `_WebAudio_ALSoft` (an `AudioContext`): its sample rate, whether it
is suspended, and the buffer sources started on it, newest first. -/
structure AudioContext where
  sampleRate : Nat
  suspended : Bool
  sources : List BufferSource
  deriving DecidableEq

/-- The fields of `WebAudioBackend` together with the device it drives and the JavaScript
global `_WebAudio_ALSoft` (`none` while it is `undefined`). -/
structure WebAudioBackend where
  mDevice : DeviceBase
  mDeviceID : Nat
  mFrameSize : Nat
  mFrequency : Nat
  mFmtChans : DevFmtChannels
  mFmtType : DevFmtType
  mUpdateSize : Nat
  mTime : ℚ
  WebAudio_ALSoft : Option AudioContext
  deriving DecidableEq

namespace WebAudioBackend

/-- The constructor `WebAudioBackend::WebAudioBackend(device)`: every field takes its default
member initialiser; no audio context exists yet. -/
def construct (device : DeviceBase) : WebAudioBackend :=
  { mDevice := device, mDeviceID := 0, mFrameSize := 0, mFrequency := 0,
    mFmtChans := DevFmtMono, mFmtType := DevFmtByte, mUpdateSize := 0, mTime := 0,
    WebAudio_ALSoft := none }

/-- The duration `fTime` of one block, `(double)samples / mFrequency`. -/
def fTime (s : WebAudioBackend) : ℚ :=
  (UPD_SIZE : ℚ) / (s.mFrequency : ℚ)

/-- The cursor after `if (aTime>mTime) mTime=aTime;`. -/
def raised (s : WebAudioBackend) (aTime : ℚ) : ℚ :=
  if aTime > s.mTime then aTime else s.mTime

/-- The test `mTime<(aTime+fTime)` of `tick`, taken after the cursor was raised: whether this
tick renders and submits a block. -/
def submits (s : WebAudioBackend) (aTime : ℚ) : Bool :=
  decide (s.raised aTime < aTime + s.fTime)

/-- The method `WebAudioBackend::tick()` with times taken as exact real numbers, and with the
clock reading `_WebAudio_ALSoft.currentTime` as input `aTime`. See `tickD` for the method in
`double` arithmetic.

It returns `none` where the embedding has no value: when `_WebAudio_ALSoft` is `undefined`
(reading `currentTime` throws) and when `mFrequency` is `0` (`fTime` is the IEEE infinity,
which the rational idealisation of `double` does not contain). -/
def tick (s : WebAudioBackend) (aTime : ℚ) : Option WebAudioBackend :=
  match s.WebAudio_ALSoft with
  | none => none
  | some ctx =>
    if s.mFrequency = 0 then none
    else
      let samples := UPD_SIZE
      let fTime : ℚ := (samples : ℚ) / (s.mFrequency : ℚ)
      let mTime := if aTime > s.mTime then aTime else s.mTime
      if mTime < aTime + fTime then
        some { s with
          mDevice := s.mDevice.renderSamples samples 2
          WebAudio_ALSoft := some { ctx with
            sources := ⟨2, samples, s.mFrequency, mTime⟩ :: ctx.sources }
          mTime := mTime + fTime }
      else
        some { s with mTime := mTime }

/-- A run of `tick()` calls, one per clock reading, in order. -/
def ticks (s : WebAudioBackend) : List ℚ → Option WebAudioBackend
  | [] => some s
  | a :: rest => (s.tick a).bind fun t => ticks t rest

/-- The duration `fTime` of one block as `tick()` computes it, the `double` quotient
`((double)samples)/mFrequency`. -/
def fTimeD (s : WebAudioBackend) : ℚ :=
  roundDouble ((UPD_SIZE : ℚ) / (s.mFrequency : ℚ))

/-- The test `mTime<(aTime+fTime)` of `tick()` in `double` arithmetic, taken after the cursor was
raised: whether this tick renders and submits a block. -/
def submitsD (s : WebAudioBackend) (aTime : ℚ) : Bool :=
  decide (s.raised aTime < roundDouble (aTime + s.fTimeD))

/-- The method `WebAudioBackend::tick()` in `double` arithmetic, with the clock reading
`_WebAudio_ALSoft.currentTime` as input `aTime`: the quotient, the sum in the guard and the sum
stored into `mTime` are each rounded to binary64.

It returns `none` where the embedding has no value: when `_WebAudio_ALSoft` is `undefined`
(reading `currentTime` throws) and when `mFrequency` is `0` (`fTime` is the IEEE infinity). -/
def tickD (s : WebAudioBackend) (aTime : ℚ) : Option WebAudioBackend :=
  match s.WebAudio_ALSoft with
  | none => none
  | some ctx =>
    if s.mFrequency = 0 then none
    else
      let samples := UPD_SIZE
      let fTime : ℚ := roundDouble ((samples : ℚ) / (s.mFrequency : ℚ))
      let mTime := if aTime > s.mTime then aTime else s.mTime
      if mTime < roundDouble (aTime + fTime) then
        some { s with
          mDevice := s.mDevice.renderSamples samples 2
          WebAudio_ALSoft := some { ctx with
            sources := ⟨2, samples, s.mFrequency, mTime⟩ :: ctx.sources }
          mTime := roundDouble (mTime + fTime) }
      else
        some { s with mTime := mTime }

/-- A run of `tick()` calls in `double` arithmetic, one per clock reading, in order. -/
def ticksD (s : WebAudioBackend) : List ℚ → Option WebAudioBackend
  | [] => some s
  | a :: rest => (s.tickD a).bind fun t => ticksD t rest

/-- The method `WebAudioBackend::open(name)`. The browser supplies the new context's
`sampleRate` and whether the context starts out suspended. -/
def «open» (win32 : Bool) (core : Core) (s : WebAudioBackend) (name : Option String)
    (sampleRate : Nat) (startsSuspended : Bool) : WebAudioBackend :=
  let devtype := DevFmtFloat
  { s with
    WebAudio_ALSoft := some { sampleRate := sampleRate, suspended := startsSuspended, sources := [] }
    mFrequency := sampleRate % UINT_MOD
    mFrameSize := (core.BytesFromDevFmt devtype * 2) % UINT_MOD
    mFmtChans := DevFmtStereo
    mFmtType := devtype
    mUpdateSize := UPD_SIZE
    mDevice := { s.mDevice with
      DeviceName := match name with
        | some n => n
        | none => defaultDeviceName win32 } }

/-- The method `WebAudioBackend::reset()`: the new state and the returned flag. -/
def reset (core : Core) (s : WebAudioBackend) : WebAudioBackend × Bool :=
  let d := { s.mDevice with
    Frequency := s.mFrequency
    FmtChans := s.mFmtChans
    FmtType := s.mFmtType
    UpdateSize := s.mUpdateSize
    BufferSize := (s.mUpdateSize * 2) % UINT_MOD }
  ({ s with mDevice := setDefaultWFXChannelOrder core d }, true)

/-- The method `WebAudioBackend::start()`: resumes the context if there is one. -/
def start (s : WebAudioBackend) : WebAudioBackend :=
  match s.WebAudio_ALSoft with
  | some ctx => { s with WebAudio_ALSoft := some { ctx with suspended := false } }
  | none => s

/-- The method `WebAudioBackend::stop()`: suspends the context if there is one. -/
def stop (s : WebAudioBackend) : WebAudioBackend :=
  match s.WebAudio_ALSoft with
  | some ctx => { s with WebAudio_ALSoft := some { ctx with suspended := true } }
  | none => s

end WebAudioBackend

/-- The method `WebAudioBackendFactory::probe(type)`, as the characters of the returned
`std::string`; `sizeof(defaultDeviceName)` counts the terminating null character. -/
def WebAudioBackendFactory.probe (win32 : Bool) (type : BackendType) : List Char :=
  let outnames : List Char := []
  if type ≠ BackendType.Playback then outnames
  else outnames ++ ((defaultDeviceName win32).toList ++ [Char.ofNat 0])

/-! ## The XAudio2 backend (`alc/backends/xaudio2.cpp`) -/

/-- The `WAVEFORMATEX` that `open` fills in (`wFormatTag` is always `WAVE_FORMAT_PCM`,
`cbSize` always 0). -/
structure WAVEFORMATEX where
  nChannels : Nat
  nSamplesPerSec : Nat
  nAvgBytesPerSec : Nat
  nBlockAlign : Nat
  wBitsPerSample : Nat
  deriving DecidableEq

/-- The native `IXAudio2SourceVoice`: the format it was created with, whether it is started,
and the `AudioBytes` of the buffers it accepted from `SubmitSourceBuffer`, newest first. -/
structure IXAudio2SourceVoice where
  format : WAVEFORMATEX
  started : Bool
  submitted : List Nat
  deriving DecidableEq

/-- The fields of `XAudio2Backend` together with the device it drives. `audioengine` and
`masteringvoice` are the handles the service returned; `source` is `none` while the pointer is
null; `mBuffer` is `none` while the pointer is null and otherwise the length of the array
allocated for it. The `callback` object only forwards to `mix` and has no field here. -/
structure XAudio2Backend where
  mDevice : DeviceBase
  audioengine : Nat
  masteringvoice : Nat
  source : Option IXAudio2SourceVoice
  mDeviceID : Nat
  mFrameSize : Nat
  mFrequency : Nat
  mFmtChans : DevFmtChannels
  mFmtType : DevFmtType
  mUpdateSize : Nat
  mBuffer : Option Nat
  mBufferSize : Nat
  deriving DecidableEq

/-- What the destructor hands back to the system. -/
inductive Released where
  | callbackObject | audioEngine | masteringVoice | sourceVoice | renderBuffer
  deriving DecidableEq, Repr

namespace XAudio2Backend

/-- The constructor `XAudio2Backend::XAudio2Backend(device)`; `engine` and `mastering` are the
handles `XAudio2Create` and `CreateMasteringVoice` return. -/
def construct (device : DeviceBase) (engine mastering : Nat) : XAudio2Backend :=
  { mDevice := device, audioengine := engine, masteringvoice := mastering, source := none,
    mDeviceID := 0, mFrameSize := 0, mFrequency := 0, mFmtChans := DevFmtMono,
    mFmtType := DevFmtByte, mUpdateSize := 0, mBuffer := none, mBufferSize := 0 }

/-- The destructor `XAudio2Backend::~XAudio2Backend()`: the resources it releases, in order. -/
def destruct (s : XAudio2Backend) : List Released :=
  [Released.callbackObject, Released.audioEngine, Released.masteringVoice]
    ++ (if s.source.isSome then [Released.sourceVoice] else [])
    ++ (if s.mBuffer.isSome then [Released.renderBuffer] else [])

/-- The block `if (mBufferSize < ulen) { ... }` of `mix`: the render buffer is replaced by a
new array of `bufferRegionSize` bytes (a null pointer when the allocation fails). -/
def provision (s : XAudio2Backend) (ulen bufferRegionSize : Nat) (allocOk : Bool) :
    XAudio2Backend :=
  if s.mBufferSize < ulen then
    { s with mBufferSize := bufferRegionSize
             mBuffer := if allocOk then some bufferRegionSize else none }
  else s

/-- The method `XAudio2Backend::mix(len)`, called by the voice callback. `assertsOn` says
whether `assert` is compiled in; `allocOk` is whether `new (std::nothrow)` succeeds and
`submitOk` whether `SubmitSourceBuffer` does, should they be called.

It returns `none` where the C++ has no defined result: division by a zero `mFrameSize`, a failed
`assert`, frames rendered through a null `mBuffer` (with no frame to render the pointer is not
used), and a call through a null `source`. -/
def mix (assertsOn : Bool) (core : Core) (s : XAudio2Backend) (len : Int)
    (allocOk submitOk : Bool) : Option XAudio2Backend :=
  let ulen : Nat := (len % (UINT_MOD : Int)).toNat
  if s.mFrameSize = 0 then none
  else if assertsOn && decide (ulen % s.mFrameSize ≠ 0) then none
  else
    let samples := ulen / s.mFrameSize
    let bufferRegionSize := samples * s.mFrameSize
    let s1 := s.provision ulen bufferRegionSize allocOk
    if s1.mBuffer = none ∧ samples ≠ 0 then none
    else
      match s1.source with
      | some voice =>
        some { s1 with
          mDevice := s1.mDevice.renderSamples samples (s1.mDevice.channelsFromFmt core)
          source := some (if submitOk then
            { voice with submitted := bufferRegionSize :: voice.submitted } else voice) }
      | none => none

/-- The method `XAudio2Backend::open(name)`. `createOk` is whether `CreateSourceVoice`
succeeds; when it does, `source` points to a new voice, stopped and with nothing queued. -/
def «open» (win32 : Bool) (core : Core) (s : XAudio2Backend) (name : Option String)
    (createOk : Bool) : XAudio2Backend :=
  let nChannels : Nat := if s.mDevice.FmtChans = DevFmtMono then 1 else 2
  let wBitsPerSample : Nat := 16
  let nSamplesPerSec : Nat := s.mDevice.Frequency % UINT_MOD
  let wf : WAVEFORMATEX :=
    { nChannels := nChannels
      wBitsPerSample := wBitsPerSample
      nSamplesPerSec := nSamplesPerSec
      nAvgBytesPerSec := ((nChannels * nSamplesPerSec) % UINT_MOD * wBitsPerSample) % UINT_MOD / 8
      nBlockAlign := wBitsPerSample * nChannels / 8 }
  let devtype := DevFmtShort
  { s with
    source := if createOk then some { format := wf, started := false, submitted := [] }
      else s.source
    mFrameSize := (core.BytesFromDevFmt devtype * wf.nChannels) % UINT_MOD
    mFrequency := wf.nSamplesPerSec
    mFmtChans := if wf.nChannels = 1 then DevFmtMono else DevFmtStereo
    mFmtType := devtype
    mUpdateSize := 8192
    mDevice := { s.mDevice with
      DeviceName := match name with
        | some n => n
        | none => defaultDeviceName win32 } }

/-- The method `XAudio2Backend::reset()`: the new state and the returned flag. -/
def reset (core : Core) (s : XAudio2Backend) : XAudio2Backend × Bool :=
  let d := { s.mDevice with
    Frequency := s.mFrequency
    FmtChans := s.mFmtChans
    FmtType := s.mFmtType
    UpdateSize := s.mUpdateSize
    BufferSize := (s.mUpdateSize * 2) % UINT_MOD }
  ({ s with mDevice := setDefaultWFXChannelOrder core d }, true)

/-- The method `XAudio2Backend::start()`: starts the source voice if there is one. -/
def start (s : XAudio2Backend) : XAudio2Backend :=
  match s.source with
  | some voice => { s with source := some { voice with started := true } }
  | none => s

/-- The method `XAudio2Backend::stop()`: stops the source voice if there is one. -/
def stop (s : XAudio2Backend) : XAudio2Backend :=
  match s.source with
  | some voice => { s with source := some { voice with started := false } }
  | none => s

end XAudio2Backend

/-- The method `XAudio2BackendFactory::probe(type)`, as the characters of the returned
`std::string`; `sizeof(defaultDeviceName)` counts the terminating null character. -/
def XAudio2BackendFactory.probe (win32 : Bool) (type : BackendType) : List Char :=
  let outnames : List Char := []
  if type ≠ BackendType.Playback then outnames
  else outnames ++ ((defaultDeviceName win32).toList ++ [Char.ofNat 0])

/-! ## The B-format decoder (`alc/bformatdec.h`) -/

/-- Modelled from the spec: the ChannelDecodeUnit of the data model (`ChannelDecoder` in
`bformatdec.h`, whose union `MatrixU` is the tagged variant the spec asks for). A single-band
unit holds one row of gains, one per output channel; a dual-band unit holds a row for the high
band and one for the low band, and the state `mXOver` of its own crossover filter. -/
inductive ChannelDecoder (α σ : Type) where
  | Single (gains : List α)
  | Dual (hfGains lfGains : List α) (mXOver : σ)

/-- Modelled from the spec: the AmbisonicDecoder (`BFormatDec`), an array of channel units, one
per ambisonic input channel. Its constructors and `process` are declared in `bformatdec.h`;
their bodies are not among the sources. The flag `mDualBand` of the header says that the units
are dual-band; here every unit carries its own band mode, as in the spec's data model. -/
structure BFormatDec (α σ : Type) where
  mChannelDec : List (ChannelDecoder α σ)

/-- Modelled from the spec: step 2 of `process` for one input channel. A dual-band unit runs its
crossover filter (`split`, the `BandSplitter` of `filters/splitter.h`, which returns the new
filter state, the low band and the high band) over the input block and contributes both bands
with their gain rows; a single-band unit contributes the input block with its one row. -/
def ChannelDecoder.bands {α σ : Type} (split : σ → List α → σ × List α × List α)
    (u : ChannelDecoder α σ) (input : List α) (SamplesToDo : Nat) :
    ChannelDecoder α σ × List (List α × List α) :=
  match u with
  | ChannelDecoder.Single gains => (ChannelDecoder.Single gains, [(gains, input.take SamplesToDo)])
  | ChannelDecoder.Dual hf lf st =>
    match split st (input.take SamplesToDo) with
    | (st2, low, high) => (ChannelDecoder.Dual hf lf st2, [(hf, high), (lf, low)])

/-- Modelled from the spec: steps 1 and 2 of `process`, over all input channels in order: the
units with their filter state advanced, and every (gain row, sub-band block) pair they
contribute. -/
def BFormatDec.runUnits {α σ : Type} (split : σ → List α → σ × List α × List α)
    (SamplesToDo : Nat) :
    List (ChannelDecoder α σ) → List (List α) → List (ChannelDecoder α σ) × List (List α × List α)
  | [], _ => ([], [])
  | u :: us, [] => (u :: us, [])
  | u :: us, x :: xs =>
    let r := u.bands split x SamplesToDo
    let rest := runUnits split SamplesToDo us xs
    (r.1 :: rest.1, r.2 ++ rest.2)

/-- Modelled from the spec: the running sum of step 3 of `process` for output channel `o` and
sample `k`: `gain[i][band][o] * subband_sample`, accumulated from zero over every input channel
and band. -/
def BFormatDec.accumulate {α : Type} [Zero α] [Add α] [Mul α]
    (contrib : List (List α × List α)) (o k : Nat) : α :=
  contrib.foldl (fun acc gx => acc + gx.1.getD o 0 * gx.2.getD k 0) 0

/-- Modelled from the spec: the write of step 3 into one output buffer: the samples at
positions `k`, `k + 1`, ... up to `count` of them are replaced by `value`; the buffer keeps its
length and its later samples. -/
def BFormatDec.writeBlock {α : Type} (value : Nat → α) : Nat → Nat → List α → List α
  | _, 0, buffer => buffer
  | _, _ + 1, [] => []
  | k, count + 1, _ :: rest => value k :: writeBlock value (k + 1) count rest

/-- Modelled from the spec: step 3 of `process` over the output buffers, `o` being the index of
the first one. -/
def BFormatDec.writeOutputs {α : Type} [Zero α] [Add α] [Mul α]
    (contrib : List (List α × List α)) (SamplesToDo : Nat) : Nat → List (List α) → List (List α)
  | _, [] => []
  | o, buffer :: rest =>
    writeBlock (accumulate contrib o) 0 SamplesToDo buffer
      :: writeOutputs contrib SamplesToDo (o + 1) rest

/-- Modelled from the spec: `BFormatDec::process(OutBuffer, InSamples, SamplesToDo)`, declared
in `bformatdec.h` with its body not among the sources. It returns the decoder with its filter
states advanced and the output buffers after the call. -/
def BFormatDec.process {α σ : Type} [Zero α] [Add α] [Mul α]
    (split : σ → List α → σ × List α × List α) (dec : BFormatDec α σ)
    (OutBuffer : List (List α)) (InSamples : List (List α)) (SamplesToDo : Nat) :
    BFormatDec α σ × List (List α) :=
  let r := runUnits split SamplesToDo dec.mChannelDec InSamples
  ({ mChannelDec := r.1 }, writeOutputs r.2 SamplesToDo 0 OutBuffer)

/-- Modelled from the spec: `BFormatDec::GetHFOrderScales(in_order, out_order)`
(`computeOrderUpscaleGains`), declared in `bformatdec.h` with its body and the constant
`MAX_AMBI_ORDER` not among the sources. The spec fixes a table of one factor per order; the
identity set when the orders agree (1.0 for the orders up to `in_order`, a fallback for the
unused higher ones); and an order-0 factor of 1.0 for order-0 content. The other factors are
calibration data the spec does not give (`calib`). -/
def BFormatDec.GetHFOrderScales {α : Type} [One α] (MAX_AMBI_ORDER : Nat)
    (calib : Nat → Nat → Nat → α) (fallback : α) (in_order out_order : Nat) : List α :=
  (List.range (MAX_AMBI_ORDER + 1)).map fun k =>
    if in_order = out_order then (if k ≤ in_order then 1 else fallback)
    else if in_order = 0 ∧ k = 0 then 1
    else calib in_order out_order k

/-- A crossover to run examples with: the low band is the running mean of neighbouring samples
(the filter state is the previous sample), the high band is what is left. -/
def sampleSplit (prev : ℚ) : List ℚ → ℚ × List ℚ × List ℚ
  | [] => (prev, [], [])
  | x :: xs =>
    match sampleSplit x xs with
    | (st, low, high) => (st, ((prev + x) / 2) :: low, ((x - prev) / 2) :: high)

/-- A dual-band decoder for two input channels and two output channels. -/
def sampleDecoder : BFormatDec ℚ ℚ :=
  { mChannelDec :=
      [ChannelDecoder.Dual [1, 1] [1/2, 1/2] 0, ChannelDecoder.Dual [1, -1] [1/2, -1/2] 0] }

/-! ## Reachable backend states -/

/-- The states a WebAudio backend can be in: it is constructed on some device record, then any
of its methods run in any order (`tick()` in `double` arithmetic or with exact times), and the
engine that owns the device record may rewrite that record between calls. -/
inductive WebAudioBackend.Reachable (win32 : Bool) (core : Core) : WebAudioBackend → Prop where
  | construct (d : DeviceBase) : Reachable win32 core (WebAudioBackend.construct d)
  | «open» (s : WebAudioBackend) (name : Option String) (rate : Nat) (susp : Bool) :
      Reachable win32 core s →
      Reachable win32 core (WebAudioBackend.open win32 core s name rate susp)
  | reset (s : WebAudioBackend) :
      Reachable win32 core s → Reachable win32 core (WebAudioBackend.reset core s).1
  | start (s : WebAudioBackend) : Reachable win32 core s → Reachable win32 core s.start
  | stop (s : WebAudioBackend) : Reachable win32 core s → Reachable win32 core s.stop
  | tick (s t : WebAudioBackend) (a : ℚ) :
      Reachable win32 core s → s.tick a = some t → Reachable win32 core t
  | tickD (s t : WebAudioBackend) (a : ℚ) :
      Reachable win32 core s → s.tickD a = some t → Reachable win32 core t
  | device (s : WebAudioBackend) (d : DeviceBase) :
      Reachable win32 core s → Reachable win32 core { s with mDevice := d }

/-- The states an XAudio2 backend can be in: it is constructed on some device record, then any
of its methods and callbacks run in any order, and the engine that owns the device record may
rewrite that record between calls. -/
inductive XAudio2Backend.Reachable (win32 assertsOn : Bool) (core : Core) :
    XAudio2Backend → Prop where
  | construct (d : DeviceBase) (e m : Nat) :
      Reachable win32 assertsOn core (XAudio2Backend.construct d e m)
  | «open» (s : XAudio2Backend) (name : Option String) (ok : Bool) :
      Reachable win32 assertsOn core s →
      Reachable win32 assertsOn core (XAudio2Backend.open win32 core s name ok)
  | reset (s : XAudio2Backend) :
      Reachable win32 assertsOn core s →
      Reachable win32 assertsOn core (XAudio2Backend.reset core s).1
  | start (s : XAudio2Backend) :
      Reachable win32 assertsOn core s → Reachable win32 assertsOn core s.start
  | stop (s : XAudio2Backend) :
      Reachable win32 assertsOn core s → Reachable win32 assertsOn core s.stop
  | mix (s t : XAudio2Backend) (len : Int) (allocOk submitOk : Bool) :
      Reachable win32 assertsOn core s → s.mix assertsOn core len allocOk submitOk = some t →
      Reachable win32 assertsOn core t
  | device (s : XAudio2Backend) (d : DeviceBase) :
      Reachable win32 assertsOn core s → Reachable win32 assertsOn core { s with mDevice := d }

/-- A device record as the engine hands it to a backend's constructor: 44.1 kHz stereo, 16-bit. -/
def sampleDevice : DeviceBase :=
  { DeviceName := "", Frequency := 44100, FmtChans := DevFmtStereo, FmtType := DevFmtShort,
    UpdateSize := 1024, BufferSize := 2048, mAmbiOrder := 0, RealOutChannelIndex := [],
    renderLog := [] }

/-- A device record asking for 5.1 surround in 32-bit float at 48 kHz. -/
def sampleDevice51 : DeviceBase :=
  { DeviceName := "", Frequency := 48000, FmtChans := DevFmtX51, FmtType := DevFmtFloat,
    UpdateSize := 1024, BufferSize := 2048, mAmbiOrder := 0, RealOutChannelIndex := [],
    renderLog := [] }

/-- Helper tables to run examples with: sample sizes and channel counts as in OpenAL Soft, and
the channels of each layout in index order. -/
def sampleCore : Core :=
  { BytesFromDevFmt := fun t =>
      match t with
      | DevFmtByte => 1
      | DevFmtUByte => 1
      | DevFmtShort => 2
      | DevFmtUShort => 2
      | DevFmtInt => 4
      | DevFmtUInt => 4
      | DevFmtFloat => 4
    ChannelsFromDevFmt := fun chans ambiorder =>
      match chans with
      | DevFmtMono => 1
      | DevFmtStereo => 2
      | DevFmtQuad => 4
      | DevFmtX51 => 6
      | DevFmtX61 => 7
      | DevFmtX71 => 8
      | DevFmtAmbi3D => (ambiorder + 1) * (ambiorder + 1)
    WFXChannelOrder := fun chans =>
      match chans with
      | DevFmtMono => [0]
      | DevFmtStereo => [0, 1]
      | _ => [] }

/-- An XAudio2 backend that was constructed on `sampleDevice` and opened without a name, the
source voice having been created. -/
def sampleXAudio2 : XAudio2Backend :=
  XAudio2Backend.open true sampleCore (XAudio2Backend.construct sampleDevice 1 2) none true

/-- An XAudio2 backend that was constructed on `sampleDevice51` and opened, with `reset()` not
yet called: the device record still holds the format that was asked for. -/
def sampleXAudio2Unreset : XAudio2Backend :=
  XAudio2Backend.open true sampleCore (XAudio2Backend.construct sampleDevice51 1 2) none true

/-- Whether a `tick()` at clock reading `aTime` renders a block from the device or hands a
buffer source to the audio service, read off the state it leaves behind. -/
def WebAudioBackend.tickSubmitted (s : WebAudioBackend) (aTime : ℚ) : Bool :=
  match s.tick aTime with
  | some t => decide (t.mDevice ≠ s.mDevice ∨ t.WebAudio_ALSoft ≠ s.WebAudio_ALSoft)
  | none => false

/-- Whether a `tick()` in `double` arithmetic at clock reading `aTime` renders a block from the
device or hands a buffer source to the audio service, read off the state it leaves behind. -/
def WebAudioBackend.tickSubmittedD (s : WebAudioBackend) (aTime : ℚ) : Bool :=
  match s.tickD aTime with
  | some t => decide (t.mDevice ≠ s.mDevice ∨ t.WebAudio_ALSoft ≠ s.WebAudio_ALSoft)
  | none => false

/-- Whether the tick number `i` (counted from 0) of the run `clocks` in `double` arithmetic
submits a block. -/
def WebAudioBackend.submitsAtD (s : WebAudioBackend) (clocks : List ℚ) (i : Nat) : Bool :=
  match s.ticksD (clocks.take i), clocks[i]? with
  | some t, some a => t.tickSubmittedD a
  | _, _ => false

/-- Whether the tick number `i` (counted from 0) of the run `clocks` submits a block. -/
def WebAudioBackend.submitsAt (s : WebAudioBackend) (clocks : List ℚ) (i : Nat) : Bool :=
  match s.ticks (clocks.take i), clocks[i]? with
  | some t, some a => t.tickSubmitted a
  | _, _ => false

/-- A WebAudio backend that was constructed on `sampleDevice` and opened without a name on a
context running at 8192 Hz, so that one block lasts one second. -/
def sampleWebAudio : WebAudioBackend :=
  WebAudioBackend.open false sampleCore (WebAudioBackend.construct sampleDevice) none 8192 false

/-! ## Allocator calls of `mix` and the sources started by `tick` -/

/-- A call to the allocator made by `mix`. -/
inductive HeapCall where
  | deleteArray
  | newArray (size : Nat)
  deriving DecidableEq, Repr

/-- The allocator calls of the block `if (mBufferSize < ulen) { ... }` of `mix`, in order:
`delete[] mBuffer` when the pointer is not null, then `new (std::nothrow) BYTE[mBufferSize]`
with the size just recorded. -/
def XAudio2Backend.provisionCalls (s : XAudio2Backend) (ulen bufferRegionSize : Nat) :
    List HeapCall :=
  if s.mBufferSize < ulen then
    (if s.mBuffer.isSome then [HeapCall.deleteArray] else [])
      ++ [HeapCall.newArray bufferRegionSize]
  else []

/-- The buffer sources started on the audio context so far, newest first (none while there is
no context). -/
def WebAudioBackend.started (s : WebAudioBackend) : List BufferSource :=
  match s.WebAudio_ALSoft with
  | some ctx => ctx.sources
  | none => []

/-! ## The optional container (`common/aloptional.h`) -/

/-- The storage of an optional, `optstore_helper<T>` with the fields of `optstore_base<T>`: the
flag `mHasValue` and the union. `mValue` is `none` while the union holds no constructed `T` (its
`mDummy` member is the active one, or the object was destroyed). Copying a `T` yields an equal
`T`. -/
structure optstore_helper (T : Type) where
  mHasValue : Bool
  mValue : Option T
  deriving DecidableEq, Repr

namespace optstore_helper

/-- The default constructor `optstore_base()`: no value, nothing constructed in the union. -/
def empty {T : Type} : optstore_helper T :=
  { mHasValue := false, mValue := none }

/-- The constructor `optstore_base(in_place_t, args...)`. -/
def in_place {T : Type} (v : T) : optstore_helper T :=
  { mHasValue := true, mValue := some v }

/-- The flag agrees with the union: a `T` is constructed there exactly when `mHasValue` is set.
Every storage made by the constructors and kept by the methods below is of this kind. -/
def consistent {T : Type} (s : optstore_helper T) : Bool :=
  s.mHasValue == s.mValue.isSome

/-- The method `construct(args...)`: `construct_at` on the union member, then the flag is set. -/
def construct {T : Type} (_s : optstore_helper T) (v : T) : optstore_helper T :=
  { mValue := some v, mHasValue := true }

/-- The method `reset()`: the stored object is destroyed if the flag says there is one, then the
flag is cleared. -/
def reset {T : Type} (s : optstore_helper T) : optstore_helper T :=
  { mValue := if s.mHasValue then none else s.mValue, mHasValue := false }

/-- The method `assign(const optstore_helper &rhs)`: the new `*this` and `rhs` after the call.
It returns `none` where the C++ reads or assigns to a `T` that was never constructed. -/
def assign {T : Type} (s rhs : optstore_helper T) :
    Option (optstore_helper T × optstore_helper T) :=
  if !rhs.mHasValue then
    some (s.reset, rhs)
  else if s.mHasValue then
    match s.mValue, rhs.mValue with
    | some _, some v => some ({ s with mValue := some v }, rhs)
    | _, _ => none
  else
    match rhs.mValue with
    | some v => some (s.construct v, rhs)
    | none => none

end optstore_helper

/-- The class `optional<T>`: its one member `mStore`. -/
structure optional (T : Type) where
  mStore : optstore_helper T
  deriving DecidableEq, Repr

namespace optional

/-- The constructors `optional()` and `optional(nullopt_t)`. -/
def nullopt {T : Type} : optional T :=
  { mStore := optstore_helper.empty }

/-- The constructor `optional(in_place_t, args...)`, also what `make_optional` returns. -/
def make_optional {T : Type} (v : T) : optional T :=
  { mStore := optstore_helper.in_place v }

/-- The copy assignment `operator=(const optional&)` for a `T` whose copy assignment is not
trivial: `optional_storage::operator=` runs `assign(rhs)`. The new `*this` and `rhs`. -/
def copy_assign {T : Type} (a b : optional T) : Option (optional T × optional T) :=
  (a.mStore.assign b.mStore).map fun r => ({ mStore := r.1 }, { mStore := r.2 })

/-- The method `has_value()`. -/
def has_value {T : Type} (o : optional T) : Bool :=
  o.mStore.mHasValue

/-- The method `value()`: the stored object, without any check; `none` when there is no object
to refer to. -/
def value {T : Type} (o : optional T) : Option T :=
  o.mStore.mValue

/-- The method `value_or(defval)`. -/
def value_or {T : Type} (o : optional T) (defval : T) : Option T :=
  if o.has_value then o.mStore.mValue else some defval

/-- The method `reset()`. -/
def reset {T : Type} (o : optional T) : optional T :=
  { mStore := o.mStore.reset }

end optional

/-- A WebAudio backend that was constructed on `sampleDevice` and opened without a name on a
context running at 48000 Hz. -/
def sampleWebAudio48k : WebAudioBackend :=
  WebAudioBackend.open false sampleCore (WebAudioBackend.construct sampleDevice) none 48000 false

/-! ## Facts about `tick` -/

namespace WebAudioBackend

/-- The state a submitting `tickD` leaves behind. -/
def afterSubmitD (s : WebAudioBackend) (ctx : AudioContext) (aTime : ℚ) : WebAudioBackend :=
  { s with
    mDevice := s.mDevice.renderSamples UPD_SIZE 2
    WebAudio_ALSoft := some { ctx with
      sources := ⟨2, UPD_SIZE, s.mFrequency, s.raised aTime⟩ :: ctx.sources }
    mTime := roundDouble (s.raised aTime + s.fTimeD) }

/-- The state a submitting `tick` leaves behind. -/
def afterSubmit (s : WebAudioBackend) (ctx : AudioContext) (aTime : ℚ) : WebAudioBackend :=
  { s with
    mDevice := s.mDevice.renderSamples UPD_SIZE 2
    WebAudio_ALSoft := some { ctx with
      sources := ⟨2, UPD_SIZE, s.mFrequency, s.raised aTime⟩ :: ctx.sources }
    mTime := s.raised aTime + s.fTime }

/-- With a context in place and a rate that is not zero, `tick` returns, and its result is
decided by `submits`. -/
theorem tick_eq (s : WebAudioBackend) (a : ℚ) (ctx : AudioContext)
    (hctx : s.WebAudio_ALSoft = some ctx) (hf : s.mFrequency ≠ 0) :
    s.tick a = some (if s.submits a then s.afterSubmit ctx a
      else { s with mTime := s.raised a }) := by
  unfold tick
  simp only [hctx, hf, if_false]
  by_cases hs : s.raised a < a + s.fTime
  · have hs2 := hs
    simp only [raised, fTime] at hs2
    simp only [submits, hs, hs2, decide_True, if_true, afterSubmit, raised, fTime]
  · have hs2 := hs
    simp only [raised, fTime] at hs2
    simp only [hs2, if_false]
    have hd : s.submits a = false := by simp [submits, hs]
    simp only [hd, Bool.false_eq_true, if_false, hctx, raised]

/-- A `tick` that returns had a context and a rate that is not zero. -/
theorem tick_some_inv (s t : WebAudioBackend) (a : ℚ) (h : s.tick a = some t) :
    (∃ ctx, s.WebAudio_ALSoft = some ctx) ∧ s.mFrequency ≠ 0 := by
  unfold tick at h
  cases hc : s.WebAudio_ALSoft with
  | none => simp [hc] at h
  | some ctx =>
    refine ⟨⟨ctx, rfl⟩, ?_⟩
    intro hf0
    simp [hc, hf0] at h

/-- What one `tick` does to the cursor. -/
theorem tick_mTime (s t : WebAudioBackend) (a : ℚ) (h : s.tick a = some t) :
    t.mTime = if s.submits a then s.raised a + s.fTime else s.raised a := by
  obtain ⟨⟨ctx, hc⟩, hf⟩ := tick_some_inv s t a h
  rw [tick_eq s a ctx hc hf] at h
  simp only [Option.some.injEq] at h
  subst h
  cases s.submits a <;> simp [afterSubmit]

/-- The `tick` method leaves the sample rate alone and keeps a context in place. -/
theorem tick_keeps (s t : WebAudioBackend) (a : ℚ) (h : s.tick a = some t) :
    t.mFrequency = s.mFrequency ∧ ∃ ctx, t.WebAudio_ALSoft = some ctx := by
  obtain ⟨⟨ctx, hc⟩, hf⟩ := tick_some_inv s t a h
  rw [tick_eq s a ctx hc hf] at h
  simp only [Option.some.injEq] at h
  subst h
  cases s.submits a <;> simp [afterSubmit, hc]

/-- The duration of a block is positive when the rate is. -/
theorem fTime_pos (s : WebAudioBackend) (hf : 0 < s.mFrequency) : 0 < s.fTime := by
  unfold fTime UPD_SIZE
  have : (0 : ℚ) < (s.mFrequency : ℚ) := by exact_mod_cast hf
  positivity

/-- The block duration is the same after a `tick`. -/
theorem tick_fTime (s t : WebAudioBackend) (a : ℚ) (h : s.tick a = some t) :
    t.fTime = s.fTime := by
  unfold fTime
  rw [(tick_keeps s t a h).1]

/-- One `tick` keeps the cursor less than two block durations ahead of the clock. -/
theorem tick_bound_step (s t : WebAudioBackend) (a : ℚ) (hf : 0 < s.mFrequency)
    (h : s.tick a = some t) (hb : s.mTime < a + 2 * s.fTime) :
    t.mTime < a + 2 * s.fTime := by
  have hpos := fTime_pos s hf
  rw [tick_mTime s t a h]
  cases hs : s.submits a with
  | true =>
    have : s.raised a < a + s.fTime := by simpa [submits] using hs
    simp only [if_true]
    linarith
  | false =>
    simp only [Bool.false_eq_true, if_false]
    unfold raised
    split_ifs <;> linarith

/-- A run of ticks over non-decreasing clock readings keeps the cursor less than two block
durations ahead of the last reading, provided it started out so for every reading. -/
theorem ticks_bound_aux (clocks : List ℚ) :
    ∀ (s : WebAudioBackend) (a : ℚ), 0 < s.mFrequency →
      (∃ ctx, s.WebAudio_ALSoft = some ctx) →
      List.Pairwise (fun x y => x ≤ y) (clocks ++ [a]) →
      (∀ c ∈ clocks ++ [a], s.mTime < c + 2 * s.fTime) →
      ∃ t, s.ticks (clocks ++ [a]) = some t ∧ t.mTime < a + 2 * s.fTime := by
  induction clocks with
  | nil =>
    intro s a hf hctx _ hb
    obtain ⟨ctx, hc⟩ := hctx
    have hf0 : s.mFrequency ≠ 0 := Nat.pos_iff_ne_zero.mp hf
    have ht := tick_eq s a ctx hc hf0
    generalize (if s.submits a then s.afterSubmit ctx a
      else { s with mTime := s.raised a }) = t1 at ht
    refine ⟨t1, by simp [ticks, ht], ?_⟩
    exact tick_bound_step s t1 a hf ht (hb a (by simp))
  | cons c cs ih =>
    intro s a hf hctx hsorted hb
    obtain ⟨ctx, hc⟩ := hctx
    have hf0 : s.mFrequency ≠ 0 := Nat.pos_iff_ne_zero.mp hf
    have ht := tick_eq s c ctx hc hf0
    generalize (if s.submits c then s.afterSubmit ctx c
      else { s with mTime := s.raised c }) = t1 at ht
    have hk := tick_keeps s t1 c ht
    have hft := tick_fTime s t1 c ht
    have h1 := tick_bound_step s t1 c hf ht (hb c (by simp))
    have hsorted2 : List.Pairwise (fun x y => x ≤ y) (c :: (cs ++ [a])) := by simpa using hsorted
    rw [List.pairwise_cons] at hsorted2
    obtain ⟨t, htk, htb⟩ := ih t1 a (by rw [hk.1]; exact hf) hk.2 hsorted2.2 (by
      intro c2 hc2
      have := hsorted2.1 c2 hc2
      rw [hft]
      linarith)
    refine ⟨t, ?_, by rw [← hft]; exact htb⟩
    show ((s.tick c).bind fun t => ticks t (cs ++ [a])) = some t
    rw [ht]
    exact htk

end WebAudioBackend

/-! ## Facts about `reset` and the reachable states -/

/-- With a context in place and a rate that is not zero, `tickD` returns, and its result is
decided by `submitsD`. -/
theorem WebAudioBackend.tickD_eq (s : WebAudioBackend) (a : ℚ) (ctx : AudioContext)
    (hctx : s.WebAudio_ALSoft = some ctx) (hf : s.mFrequency ≠ 0) :
    s.tickD a = some (if s.submitsD a then s.afterSubmitD ctx a
      else { s with mTime := s.raised a }) := by
  unfold WebAudioBackend.tickD
  simp only [hctx, hf, if_false]
  by_cases hs : s.raised a < roundDouble (a + s.fTimeD)
  · have hs2 := hs
    simp only [WebAudioBackend.raised, WebAudioBackend.fTimeD] at hs2
    simp only [WebAudioBackend.submitsD, hs, hs2, decide_True, if_true,
      WebAudioBackend.afterSubmitD, WebAudioBackend.raised, WebAudioBackend.fTimeD]
  · have hs2 := hs
    simp only [WebAudioBackend.raised, WebAudioBackend.fTimeD] at hs2
    simp only [hs2, if_false]
    have hd : s.submitsD a = false := by simp [WebAudioBackend.submitsD, hs]
    simp only [hd, Bool.false_eq_true, if_false, hctx, WebAudioBackend.raised]

/-- A `tickD` that returns had a context and a rate that is not zero. -/
theorem WebAudioBackend.tickD_some_inv (s t : WebAudioBackend) (a : ℚ)
    (h : s.tickD a = some t) :
    (∃ ctx, s.WebAudio_ALSoft = some ctx) ∧ s.mFrequency ≠ 0 := by
  unfold WebAudioBackend.tickD at h
  cases hc : s.WebAudio_ALSoft with
  | none => simp [hc] at h
  | some ctx =>
    refine ⟨⟨ctx, rfl⟩, ?_⟩
    intro hf0
    simp [hc, hf0] at h

/-- A `tickD` leaves `mUpdateSize` alone. -/
theorem WebAudioBackend.tickD_mUpdateSize (s t : WebAudioBackend) (a : ℚ)
    (h : s.tickD a = some t) : t.mUpdateSize = s.mUpdateSize := by
  obtain ⟨⟨ctx, hc⟩, hf⟩ := WebAudioBackend.tickD_some_inv s t a h
  rw [WebAudioBackend.tickD_eq s a ctx hc hf] at h
  simp only [Option.some.injEq] at h
  subst h
  cases s.submitsD a <;> simp [WebAudioBackend.afterSubmitD]

/-- A `tick` leaves `mUpdateSize` alone. -/
theorem WebAudioBackend.tick_mUpdateSize (s t : WebAudioBackend) (a : ℚ)
    (h : s.tick a = some t) : t.mUpdateSize = s.mUpdateSize := by
  obtain ⟨⟨ctx, hc⟩, hf⟩ := tick_some_inv s t a h
  rw [tick_eq s a ctx hc hf] at h
  simp only [Option.some.injEq] at h
  subst h
  cases s.submits a <;> simp [afterSubmit]

/-- In every reachable WebAudio state `mUpdateSize` is 0 or `UPD_SIZE`. -/
theorem WebAudioBackend.reachable_updateSize (win32 : Bool) (core : Core)
    (s : WebAudioBackend) (h : s.Reachable win32 core) :
    s.mUpdateSize = 0 ∨ s.mUpdateSize = UPD_SIZE := by
  induction h with
  | construct d => left; rfl
  | «open» s name rate susp _ _ => right; rfl
  | reset s _ ih => exact ih
  | start s _ ih =>
    unfold WebAudioBackend.start
    split <;> exact ih
  | stop s _ ih =>
    unfold WebAudioBackend.stop
    split <;> exact ih
  | tick s t a _ ht ih => rw [WebAudioBackend.tick_mUpdateSize s t a ht]; exact ih
  | tickD s t a _ ht ih => rw [WebAudioBackend.tickD_mUpdateSize s t a ht]; exact ih
  | device s d _ ih => exact ih

/-- The `mix` callback leaves `mUpdateSize` alone. -/
theorem XAudio2Backend.mix_mUpdateSize (assertsOn : Bool) (core : Core) (s t : XAudio2Backend)
    (len : Int)
    (allocOk submitOk : Bool) (h : s.mix assertsOn core len allocOk submitOk = some t) :
    t.mUpdateSize = s.mUpdateSize := by
  unfold XAudio2Backend.mix at h
  dsimp only at h
  split_ifs at h
  all_goals
    split at h
    · simp only [Option.some.injEq] at h
      subst h
      show (s.provision _ _ allocOk).mUpdateSize = s.mUpdateSize
      unfold XAudio2Backend.provision
      split <;> rfl
    · exact absurd h (by simp)

/-- In every reachable XAudio2 state `mUpdateSize` is 0 or 8192. -/
theorem XAudio2Backend.reachable_mUpdateSize (win32 assertsOn : Bool)
    (core : Core) (s : XAudio2Backend)
    (h : s.Reachable win32 assertsOn core) :
    s.mUpdateSize = 0 ∨ s.mUpdateSize = 8192 := by
  induction h with
  | construct d e m => left; rfl
  | «open» s name ok _ _ => right; rfl
  | reset s _ ih => exact ih
  | start s _ ih =>
    unfold XAudio2Backend.start
    split <;> exact ih
  | stop s _ ih =>
    unfold XAudio2Backend.stop
    split <;> exact ih
  | mix s t len allocOk submitOk _ ht ih =>
    rw [XAudio2Backend.mix_mUpdateSize assertsOn core s t len allocOk submitOk ht]; exact ih
  | device s d _ ih => exact ih

/-! ## Facts about the decoder's output write -/

/-- Writing a block fixes the first `count` samples of a buffer that long. -/
theorem BFormatDec.writeBlock_take {α : Type} (value : Nat → α) (count : Nat) :
    ∀ (k : Nat) (buffer : List α), count ≤ buffer.length →
      (writeBlock value k count buffer).take count = (List.range' k count).map value := by
  induction count with
  | zero => intro k buffer _; simp
  | succ n ih =>
    intro k buffer h
    cases buffer with
    | nil => simp at h
    | cons b rest =>
      simp only [writeBlock, List.take_succ_cons, List.range'_succ, List.map_cons]
      rw [ih (k + 1) rest (by simpa using h)]

/-- The first `SamplesToDo` samples of every written output buffer are the accumulated sums,
whatever the buffers held. -/
theorem BFormatDec.writeOutputs_take {α : Type} [Zero α] [Add α] [Mul α]
    (contrib : List (List α × List α)) (n : Nat) :
    ∀ (o : Nat) (out : List (List α)), (∀ b ∈ out, n ≤ b.length) →
      (writeOutputs contrib n o out).map (List.take n) =
        (List.range' o out.length).map fun c => (List.range' 0 n).map (accumulate contrib c) := by
  intro o out
  induction out generalizing o with
  | nil => intro _; simp [writeOutputs]
  | cons b rest ih =>
    intro h
    simp only [writeOutputs, List.map_cons, List.length_cons, List.range'_succ]
    rw [writeBlock_take _ n 0 b (h b (by simp)), ih (o + 1) (fun c hc => h c (by simp [hc]))]

/-! ## Claims -/

/-- C1. Starting from the cursor `mTime = 0`, with a positive sample rate and an audio context in
place, every run of `tick()` calls over non-negative, non-decreasing clock readings returns,
and after its last tick (hence after every tick) the cursor is less than the clock reading plus
two block durations `2 * UPD_SIZE / mFrequency`. -/
theorem C1_tick_cursor_less_than_two_blocks_ahead (s : WebAudioBackend) (clocks : List ℚ) (a : ℚ)
    (h0 : s.mTime = 0) (hf : 0 < s.mFrequency) (hctx : ∃ ctx, s.WebAudio_ALSoft = some ctx)
    (hmono : List.Pairwise (fun x y => x ≤ y) (clocks ++ [a]))
    (hnonneg : ∀ c ∈ clocks ++ [a], 0 ≤ c) :
    ∃ t, s.ticks (clocks ++ [a]) = some t ∧
      t.mTime < a + 2 * ((UPD_SIZE : ℚ) / (s.mFrequency : ℚ)) := by
  have hpos := WebAudioBackend.fTime_pos s hf
  have := WebAudioBackend.ticks_bound_aux clocks s a hf hctx hmono (by
    intro c hc
    have := hnonneg c hc
    rw [h0]
    linarith)
  simpa [WebAudioBackend.fTime] using this

/-- Witness for C1: three ticks of `sampleWebAudio` at the clock readings 0, 1/2 and 1. -/
theorem C1_witness :
    sampleWebAudio.mTime = 0 ∧ 0 < sampleWebAudio.mFrequency ∧
    ∃ t, sampleWebAudio.ticks ([0, 1/2] ++ [1]) = some t ∧
      t.mTime < 1 + 2 * ((UPD_SIZE : ℚ) / (sampleWebAudio.mFrequency : ℚ)) :=
  ⟨rfl, by decide,
    C1_tick_cursor_less_than_two_blocks_ahead sampleWebAudio [0, 1/2] 1 rfl (by decide)
      ⟨_, rfl⟩ (by norm_num) (by
        intro c hc
        simp only [List.cons_append, List.nil_append, List.mem_cons, List.mem_singleton,
          List.not_mem_nil, or_false] at hc
        rcases hc with h | h | h <;> rw [h] <;> norm_num)⟩

/-- C4 (as stated) fails for the empty string: `open("")` on either backend records the empty
name, not the default device name. -/
theorem C4_counterexample :
    (WebAudioBackend.open false sampleCore (WebAudioBackend.construct sampleDevice) (some "") 8192
        false).mDevice.DeviceName ≠ defaultDeviceName false ∧
    (XAudio2Backend.open true sampleCore (XAudio2Backend.construct sampleDevice 1 2) (some "")
        true).mDevice.DeviceName ≠ defaultDeviceName true := by
  constructor <;> decide

/-- C4 (as amended). On both backends `open(name)` records the default device name
(`DEVNAME_PREFIX` followed by "Default Device") when `name` is a null pointer, and records
`name` itself for every other `name`, the empty string included. -/
theorem C4_open_device_name (winW winX : Bool) (core : Core) (sw : WebAudioBackend)
    (sx : XAudio2Backend) (rate : Nat) (susp ok : Bool) :
    (WebAudioBackend.open winW core sw none rate susp).mDevice.DeviceName
        = ( DEVNAME_PREFIX winW) ++ "Default Device" ∧
    (XAudio2Backend.open winX core sx none ok).mDevice.DeviceName
        = ( DEVNAME_PREFIX winX) ++ "Default Device" ∧
    ∀ n : String,
      (WebAudioBackend.open winW core sw (some n) rate susp).mDevice.DeviceName = n ∧
      (XAudio2Backend.open winX core sx (some n) ok).mDevice.DeviceName = n :=
  ⟨rfl, rfl, fun _ => ⟨rfl, rfl⟩⟩

/-- C5. In every reachable state of either backend, `reset()` stores the backend's
`mFrequency`, `mFmtChans`, `mFmtType` and `mUpdateSize` in the device record, sets the device's
`BufferSize` to exactly twice its `UpdateSize`, leaves every field of the backend itself as it
was, and a second `reset()` changes nothing further. -/
theorem C5_reset_publishes_format (winW winX assertsOn : Bool) (core : Core)
    (sw : WebAudioBackend) (sx : XAudio2Backend)
    (hw : sw.Reachable winW core) (hx : sx.Reachable winX assertsOn core) :
    ((WebAudioBackend.reset core sw).1.mDevice.Frequency = sw.mFrequency ∧
      (WebAudioBackend.reset core sw).1.mDevice.FmtChans = sw.mFmtChans ∧
      (WebAudioBackend.reset core sw).1.mDevice.FmtType = sw.mFmtType ∧
      (WebAudioBackend.reset core sw).1.mDevice.UpdateSize = sw.mUpdateSize ∧
      (WebAudioBackend.reset core sw).1.mDevice.BufferSize =
        2 * (WebAudioBackend.reset core sw).1.mDevice.UpdateSize ∧
      { (WebAudioBackend.reset core sw).1 with mDevice := sw.mDevice } = sw ∧
      (WebAudioBackend.reset core (WebAudioBackend.reset core sw).1).1 =
        (WebAudioBackend.reset core sw).1) ∧
    ((XAudio2Backend.reset core sx).1.mDevice.Frequency = sx.mFrequency ∧
      (XAudio2Backend.reset core sx).1.mDevice.FmtChans = sx.mFmtChans ∧
      (XAudio2Backend.reset core sx).1.mDevice.FmtType = sx.mFmtType ∧
      (XAudio2Backend.reset core sx).1.mDevice.UpdateSize = sx.mUpdateSize ∧
      (XAudio2Backend.reset core sx).1.mDevice.BufferSize =
        2 * (XAudio2Backend.reset core sx).1.mDevice.UpdateSize ∧
      { (XAudio2Backend.reset core sx).1 with mDevice := sx.mDevice } = sx ∧
      (XAudio2Backend.reset core (XAudio2Backend.reset core sx).1).1 =
        (XAudio2Backend.reset core sx).1) := by
  have h1 := WebAudioBackend.reachable_updateSize winW core sw hw
  have h2 := XAudio2Backend.reachable_mUpdateSize winX assertsOn core sx hx
  refine ⟨⟨rfl, rfl, rfl, rfl, ?_, rfl, rfl⟩, ⟨rfl, rfl, rfl, rfl, ?_, rfl, rfl⟩⟩
  · show (sw.mUpdateSize * 2) % UINT_MOD = 2 * sw.mUpdateSize
    rcases h1 with h | h <;> rw [h] <;> decide
  · show (sx.mUpdateSize * 2) % UINT_MOD = 2 * sx.mUpdateSize
    rcases h2 with h | h <;> rw [h] <;> decide


/-- Witness for C5: the opened sample backends. -/
theorem C5_witness :
    sampleWebAudio.Reachable false sampleCore ∧ sampleXAudio2.Reachable true true sampleCore ∧
    (((WebAudioBackend.reset sampleCore sampleWebAudio).1.mDevice.Frequency = sampleWebAudio.mFrequency ∧
      (WebAudioBackend.reset sampleCore sampleWebAudio).1.mDevice.FmtChans = sampleWebAudio.mFmtChans ∧
      (WebAudioBackend.reset sampleCore sampleWebAudio).1.mDevice.FmtType = sampleWebAudio.mFmtType ∧
      (WebAudioBackend.reset sampleCore sampleWebAudio).1.mDevice.UpdateSize = sampleWebAudio.mUpdateSize ∧
      (WebAudioBackend.reset sampleCore sampleWebAudio).1.mDevice.BufferSize =
        2 * (WebAudioBackend.reset sampleCore sampleWebAudio).1.mDevice.UpdateSize ∧
      { (WebAudioBackend.reset sampleCore sampleWebAudio).1 with mDevice := sampleWebAudio.mDevice } = sampleWebAudio ∧
      (WebAudioBackend.reset sampleCore (WebAudioBackend.reset sampleCore sampleWebAudio).1).1 =
        (WebAudioBackend.reset sampleCore sampleWebAudio).1) ∧
    ((XAudio2Backend.reset sampleCore sampleXAudio2).1.mDevice.Frequency = sampleXAudio2.mFrequency ∧
      (XAudio2Backend.reset sampleCore sampleXAudio2).1.mDevice.FmtChans = sampleXAudio2.mFmtChans ∧
      (XAudio2Backend.reset sampleCore sampleXAudio2).1.mDevice.FmtType = sampleXAudio2.mFmtType ∧
      (XAudio2Backend.reset sampleCore sampleXAudio2).1.mDevice.UpdateSize = sampleXAudio2.mUpdateSize ∧
      (XAudio2Backend.reset sampleCore sampleXAudio2).1.mDevice.BufferSize =
        2 * (XAudio2Backend.reset sampleCore sampleXAudio2).1.mDevice.UpdateSize ∧
      { (XAudio2Backend.reset sampleCore sampleXAudio2).1 with mDevice := sampleXAudio2.mDevice } = sampleXAudio2 ∧
      (XAudio2Backend.reset sampleCore (XAudio2Backend.reset sampleCore sampleXAudio2).1).1 =
        (XAudio2Backend.reset sampleCore sampleXAudio2).1)) :=
  have hw : sampleWebAudio.Reachable false sampleCore :=
    WebAudioBackend.Reachable.open _ none 8192 false (WebAudioBackend.Reachable.construct sampleDevice)
  have hx : sampleXAudio2.Reachable true true sampleCore :=
    XAudio2Backend.Reachable.open _ none true (XAudio2Backend.Reachable.construct sampleDevice 1 2)
  ⟨hw, hx, C5_reset_publishes_format false true true sampleCore sampleWebAudio sampleXAudio2 hw hx⟩

/-- C6 (as stated) fails: a backend that was only constructed holds no negotiated format
(`mFrequency = 0`, `mUpdateSize = 0`), and `reset()` still returns `true`, on both backends. -/
theorem C6_counterexample :
    ((WebAudioBackend.construct sampleDevice).mFrequency = 0 ∧
      (WebAudioBackend.construct sampleDevice).mUpdateSize = 0 ∧
      (WebAudioBackend.reset sampleCore (WebAudioBackend.construct sampleDevice)).2 = true) ∧
    ((XAudio2Backend.construct sampleDevice 1 2).mFrequency = 0 ∧
      (XAudio2Backend.construct sampleDevice 1 2).mUpdateSize = 0 ∧
      (XAudio2Backend.reset sampleCore (XAudio2Backend.construct sampleDevice 1 2)).2 = true) :=
  ⟨⟨rfl, rfl, rfl⟩, ⟨rfl, rfl, rfl⟩⟩

/-- C6 (as amended). On both backends `reset()` returns `true` in every state, also when the
backend holds no usable format (`mFrequency = 0`, `mUpdateSize = 0`): it never reports
failure. -/
theorem C6_reset_returns_true (core : Core) (sw : WebAudioBackend)
    (sx : XAudio2Backend) :
    (WebAudioBackend.reset core sw).2 = true ∧ (XAudio2Backend.reset core sx).2 = true :=
  ⟨rfl, rfl⟩

/-- C7. `BFormatDec::process` overwrites its output buffers: for every decoder (single-band
units, dual-band units, or both), every crossover filter, every input block and every
`SamplesToDo`, the first `SamplesToDo` samples of every output channel after `process` are the
same for any two prior contents of the output buffers (buffers at least `SamplesToDo` long, as
many in both cases), and `process` returns as many buffers as it was given. -/
theorem C7_process_overwrites_outputs {α σ : Type} [Zero α] [Add α] [Mul α]
    (split : σ → List α → σ × List α × List α) (dec : BFormatDec α σ)
    (InSamples : List (List α)) (SamplesToDo : Nat) (out1 out2 : List (List α))
    (hlen : out1.length = out2.length)
    (h1 : ∀ b ∈ out1, SamplesToDo ≤ b.length) (h2 : ∀ b ∈ out2, SamplesToDo ≤ b.length) :
    ((dec.process split out1 InSamples SamplesToDo).2).map (List.take SamplesToDo) =
      ((dec.process split out2 InSamples SamplesToDo).2).map (List.take SamplesToDo) ∧
    (dec.process split out1 InSamples SamplesToDo).2.length = out1.length := by
  unfold BFormatDec.process
  simp only
  refine ⟨?_, ?_⟩
  · rw [BFormatDec.writeOutputs_take _ _ 0 out1 h1, BFormatDec.writeOutputs_take _ _ 0 out2 h2,
      hlen]
  have := congrArg List.length (BFormatDec.writeOutputs_take
    (BFormatDec.runUnits split SamplesToDo dec.mChannelDec InSamples).2 SamplesToDo 0 out1 h1)
  simpa using this

/-- Witness for C7: `sampleDecoder` run over two samples of a two-channel input, once into
buffers holding 9s and 7s and once into buffers holding other values. -/
theorem C7_witness :
    ((sampleDecoder.process sampleSplit [[9, 9, 9], [7, 7, 7]] [[1, 2, 3], [4, 5, 6]] 2).2).map
        (List.take 2) =
      ((sampleDecoder.process sampleSplit [[0, 0, 0], [-1, 5, 2]] [[1, 2, 3], [4, 5, 6]] 2).2).map
        (List.take 2) ∧
    (sampleDecoder.process sampleSplit [[9, 9, 9], [7, 7, 7]] [[1, 2, 3], [4, 5, 6]] 2).2.length = 2 :=
  C7_process_overwrites_outputs sampleSplit sampleDecoder [[1, 2, 3], [4, 5, 6]] 2
    [[9, 9, 9], [7, 7, 7]] [[0, 0, 0], [-1, 5, 2]] rfl (by decide) (by decide)

/-- C8. When source and target order agree, `GetHFOrderScales(k, k)` with
`0 ≤ k ≤ MAX_AMBI_ORDER` returns a table of `MAX_AMBI_ORDER + 1` entries whose entries for the
orders `0..k` are all exactly 1. -/
theorem C8_equal_orders_identity {α : Type} [One α] (MAX_AMBI_ORDER : Nat)
    (calib : Nat → Nat → Nat → α) (fallback : α) (k j : Nat)
    (hk : k ≤ MAX_AMBI_ORDER) (hj : j ≤ k) :
    (BFormatDec.GetHFOrderScales MAX_AMBI_ORDER calib fallback k k).length = MAX_AMBI_ORDER + 1 ∧
    (BFormatDec.GetHFOrderScales MAX_AMBI_ORDER calib fallback k k)[j]? = some 1 := by
  unfold BFormatDec.GetHFOrderScales
  refine ⟨by simp, ?_⟩
  have hlt : j < MAX_AMBI_ORDER + 1 := by omega
  simp [List.getElem?_map, List.getElem?_range hlt, hj]

/-- Witness for C8: orders 2 and 2 with `MAX_AMBI_ORDER = 3`, entry 1. -/
theorem C8_witness :
    (BFormatDec.GetHFOrderScales 3 (fun _ _ _ => (5 : ℚ)) 7 2 2).length = 3 + 1 ∧
    (BFormatDec.GetHFOrderScales 3 (fun _ _ _ => (5 : ℚ)) 7 2 2)[1]? = some 1 :=
  C8_equal_orders_identity 3 (fun _ _ _ => (5 : ℚ)) 7 2 1 (by decide) (by decide)

/-- C9. On a freshly constructed XAudio2 backend (null source voice) `stop()` and `start()`
leave the state unchanged and the destructor releases no source voice; in every state `start()`
twice is the same as `start()` once, and likewise for `stop()`. -/
theorem C9_lifecycle_out_of_order_and_idempotent (d : DeviceBase) (e m : Nat)
    (s : XAudio2Backend) :
    (XAudio2Backend.construct d e m).stop = XAudio2Backend.construct d e m ∧
    (XAudio2Backend.construct d e m).start = XAudio2Backend.construct d e m ∧
    Released.sourceVoice ∉ (XAudio2Backend.construct d e m).destruct ∧
    s.start.start = s.start ∧ s.stop.stop = s.stop := by
  refine ⟨rfl, rfl, by simp [XAudio2Backend.destruct, XAudio2Backend.construct], ?_, ?_⟩
  · cases hs : s.source with
    | none => simp [XAudio2Backend.start, hs]
    | some v => simp [XAudio2Backend.start, hs]
  · cases hs : s.source with
    | none => simp [XAudio2Backend.stop, hs]
    | some v => simp [XAudio2Backend.stop, hs]

/-- C10 (as stated) fails for the capture direction: both factories return the empty string,
which does not contain the default device name followed by a null character. -/
theorem C10_counterexample :
    WebAudioBackendFactory.probe false BackendType.Capture = [] ∧
    XAudio2BackendFactory.probe true BackendType.Capture = [] ∧
    ¬ (∃ pre post : List Char, WebAudioBackendFactory.probe false BackendType.Capture =
        pre ++ ((defaultDeviceName false).toList ++ [Char.ofNat 0]) ++ post) ∧
    ¬ (∃ pre post : List Char, XAudio2BackendFactory.probe true BackendType.Capture =
        pre ++ ((defaultDeviceName true).toList ++ [Char.ofNat 0]) ++ post) := by
  have hW : WebAudioBackendFactory.probe false BackendType.Capture = [] := rfl
  have hX : XAudio2BackendFactory.probe true BackendType.Capture = [] := rfl
  refine ⟨hW, hX, ?_, ?_⟩
  · rintro ⟨pre, post, h⟩
    rw [hW] at h
    have := congrArg List.length h
    simp at this
    omega
  · rintro ⟨pre, post, h⟩
    rw [hX] at h
    have := congrArg List.length h
    simp at this
    omega

/-- C10 (as amended). For the playback direction both factories return exactly the default
device name followed by its terminating null character; for every other direction they return
the empty string. -/
theorem C10_probe_lists_default_for_playback (winW winX : Bool) (type : BackendType) :
    WebAudioBackendFactory.probe winW BackendType.Playback =
      (( DEVNAME_PREFIX winW) ++ "Default Device").toList ++ [Char.ofNat 0] ∧
    XAudio2BackendFactory.probe winX BackendType.Playback =
      (( DEVNAME_PREFIX winX) ++ "Default Device").toList ++ [Char.ofNat 0] ∧
    (type ≠ BackendType.Playback →
      WebAudioBackendFactory.probe winW type = [] ∧ XAudio2BackendFactory.probe winX type = []) := by
  refine ⟨by simp [WebAudioBackendFactory.probe, defaultDeviceName],
    by simp [XAudio2BackendFactory.probe, defaultDeviceName], ?_⟩
  intro h
  simp [WebAudioBackendFactory.probe, XAudio2BackendFactory.probe, h]

/-- Witness for C10 (as amended): the capture direction. -/
theorem C10_witness :
    WebAudioBackendFactory.probe false BackendType.Playback =
      (( DEVNAME_PREFIX false) ++ "Default Device").toList ++ [Char.ofNat 0] ∧
    XAudio2BackendFactory.probe true BackendType.Playback =
      (( DEVNAME_PREFIX true) ++ "Default Device").toList ++ [Char.ofNat 0] ∧
    WebAudioBackendFactory.probe false BackendType.Capture = [] ∧
    XAudio2BackendFactory.probe true BackendType.Capture = [] :=
  have h := C10_probe_lists_default_for_playback false true BackendType.Capture
  ⟨h.1, h.2.1, h.2.2 (by decide)⟩

/-! ## Facts about `provision` and `assign` -/

/-- The recorded size after the block `if (mBufferSize < ulen) { ... }`, whether or not the
allocation succeeds: still a multiple of the frame size, not smaller than before, at least the
bytes of the whole frames in `ulen`, and changed only when it was smaller than `ulen`. -/
theorem XAudio2Backend.provision_size (s : XAudio2Backend) (ulen : Nat) (allocOk : Bool)
    (hf : 0 < s.mFrameSize) (hmul : s.mFrameSize ∣ s.mBufferSize) :
    s.mFrameSize ∣ (s.provision ulen (ulen / s.mFrameSize * s.mFrameSize) allocOk).mBufferSize ∧
    s.mBufferSize ≤ (s.provision ulen (ulen / s.mFrameSize * s.mFrameSize) allocOk).mBufferSize ∧
    ulen / s.mFrameSize * s.mFrameSize ≤
      (s.provision ulen (ulen / s.mFrameSize * s.mFrameSize) allocOk).mBufferSize ∧
    ((s.provision ulen (ulen / s.mFrameSize * s.mFrameSize) allocOk).mBufferSize ≠ s.mBufferSize →
      s.mBufferSize < ulen) := by
  by_cases hlt : s.mBufferSize < ulen
  · have hp : (s.provision ulen (ulen / s.mFrameSize * s.mFrameSize) allocOk).mBufferSize =
        ulen / s.mFrameSize * s.mFrameSize := by
      simp [XAudio2Backend.provision, hlt]
    rw [hp]
    refine ⟨Nat.dvd_mul_left _ _, ?_, le_refl _, fun _ => hlt⟩
    obtain ⟨k, hk⟩ := hmul
    rw [hk, Nat.mul_comm]
    apply Nat.mul_le_mul_right
    rw [Nat.le_div_iff_mul_le hf]
    rw [hk, Nat.mul_comm] at hlt
    exact Nat.le_of_lt hlt
  · have hp : s.provision ulen (ulen / s.mFrameSize * s.mFrameSize) allocOk = s := by
      simp [XAudio2Backend.provision, hlt]
    rw [hp]
    exact ⟨hmul, le_refl _, le_trans (Nat.div_mul_le_self _ _) (Nat.le_of_not_lt hlt),
      fun h => absurd rfl h⟩

/-- The three branches of `assign` on small examples: a value assigned to an empty optional,
a value assigned over a value, and an empty optional assigned over a value. -/
theorem copy_assign_branches :
    (optional.nullopt : optional Nat).copy_assign (optional.make_optional 5) =
      some (optional.make_optional 5, optional.make_optional 5) ∧
    (optional.make_optional 3).copy_assign (optional.make_optional 5) =
      some (optional.make_optional 5, optional.make_optional 5) ∧
    (optional.make_optional 3).copy_assign (optional.nullopt : optional Nat) =
      some (optional.nullopt, optional.nullopt) :=
  ⟨rfl, rfl, rfl⟩

/-! ## Claims, continued -/

/-- C13. Copy assignment of the optional container: for every two optionals `a` and `b` over
the same type (each with its flag in agreement with its storage), `a = b` returns and leaves `b`
unchanged; afterwards `a.has_value()` equals `b.has_value()`, `a` holds a value equal to `b`'s
when `b` holds one, `a` is empty when `b` is empty, and the flag of `a` still agrees with its
storage. The proof goes through the three branches of `assign`. -/
theorem C13_copy_assign_copies_state_and_value {T : Type} (a b : optional T)
    (ha : a.mStore.consistent = true) (hb : b.mStore.consistent = true) :
    ∃ a2 b2, a.copy_assign b = some (a2, b2) ∧
      b2 = b ∧
      a2.has_value = b.has_value ∧
      a2.value = b.value ∧
      (b.has_value = true → ∃ v, b.value = some v ∧ a2.value = some v) ∧
      (b.has_value = false → a2.has_value = false ∧ a2.value = none) ∧
      a2.mStore.consistent = true := by
  obtain ⟨⟨af, av⟩⟩ := a
  obtain ⟨⟨bf, bv⟩⟩ := b
  simp only [optstore_helper.consistent, beq_iff_eq] at ha hb
  cases bf with
  | false =>
    have hbv : bv = none := by
      cases bv with
      | none => rfl
      | some v => simp at hb
    subst hbv
    cases af with
    | false =>
      have hav : av = none := by
        cases av with
        | none => rfl
        | some v => simp at ha
      subst hav
      exact ⟨_, _, rfl, rfl, rfl, rfl, by simp [optional.has_value], fun _ => ⟨rfl, rfl⟩, rfl⟩
    | true =>
      exact ⟨_, _, rfl, rfl, rfl, rfl, by simp [optional.has_value], fun _ => ⟨rfl, rfl⟩, rfl⟩
  | true =>
    cases bv with
    | none => simp at hb
    | some v =>
      cases af with
      | false =>
        exact ⟨_, _, rfl, rfl, rfl, rfl, fun _ => ⟨v, rfl, rfl⟩,
          by simp [optional.has_value], rfl⟩
      | true =>
        cases av with
        | none => simp at ha
        | some w =>
          exact ⟨_, _, rfl, rfl, rfl, rfl, fun _ => ⟨v, rfl, rfl⟩,
            by simp [optional.has_value], rfl⟩

/-- Witness for C13: an optional holding 3 is assigned one holding 5. -/
theorem C13_witness :
    ∃ a2 b2, (optional.make_optional 3).copy_assign (optional.make_optional 5) = some (a2, b2) ∧
      b2 = optional.make_optional 5 ∧
      a2.has_value = (optional.make_optional 5).has_value ∧
      a2.value = (optional.make_optional 5).value ∧
      ((optional.make_optional 5).has_value = true →
        ∃ v, (optional.make_optional 5).value = some v ∧ a2.value = some v) ∧
      ((optional.make_optional 5).has_value = false →
        a2.has_value = false ∧ a2.value = none) ∧
      a2.mStore.consistent = true :=
  C13_copy_assign_copies_state_and_value (optional.make_optional 3) (optional.make_optional 5)
    rfl rfl

/-! ## Facts about binary64 rounding -/

/-- An integer rounds to itself. -/
theorem roundHalfEven_intCast (n : ℤ) : roundHalfEven (n : ℚ) = n := by
  simp [roundHalfEven]

/-- The two outcomes of rounding: the floor, or the floor plus one. -/
theorem roundHalfEven_cases (t : ℚ) :
    (roundHalfEven t = ⌊t⌋ ∧ (t - ⌊t⌋ < 1/2 ∨ (t - ⌊t⌋ = 1/2 ∧ ⌊t⌋ % 2 = 0))) ∨
    (roundHalfEven t = ⌊t⌋ + 1 ∧ (1/2 < t - ⌊t⌋ ∨ (t - ⌊t⌋ = 1/2 ∧ ⌊t⌋ % 2 = 1))) := by
  unfold roundHalfEven
  simp only
  by_cases h1 : t - ⌊t⌋ < 1/2
  · left; simp only [h1, if_true, true_and]; left; trivial
  · by_cases h2 : 1/2 < t - ⌊t⌋
    · right; simp only [h1, h2, if_true, if_false, true_and]; left; trivial
    · have he : t - ⌊t⌋ = 1/2 := le_antisymm (not_lt.mp h2) (not_lt.mp h1)
      by_cases h3 : ⌊t⌋ % 2 = 0
      · left; simp only [h1, h2, h3, if_true, if_false, true_and]; right; exact ⟨he, trivial⟩
      · right; simp only [h1, h2, h3, if_false, true_and]; right; exact ⟨he, by omega⟩

/-- Rounding to the nearest integer is monotone. -/
theorem roundHalfEven_mono {s t : ℚ} (h : s ≤ t) : roundHalfEven s ≤ roundHalfEven t := by
  have hfl : ⌊s⌋ ≤ ⌊t⌋ := Int.floor_le_floor h
  have ht1 : (⌊t⌋ : ℚ) ≤ t := Int.floor_le t
  have hs2 : s < ⌊s⌋ + 1 := Int.lt_floor_add_one s
  rcases roundHalfEven_cases s with ⟨hs, _⟩ | ⟨hs, hs'⟩ <;>
  rcases roundHalfEven_cases t with ⟨ht, ht'⟩ | ⟨ht, _⟩
  · rw [hs, ht]; exact hfl
  · rw [hs, ht]; omega
  · rw [hs, ht]
    rcases lt_or_eq_of_le hfl with hlt | heq
    · omega
    · exfalso
      rw [heq] at hs'
      rcases hs' with h1 | ⟨h1, h1'⟩ <;> rcases ht' with h2 | ⟨h2, h2'⟩
      · linarith
      · linarith
      · linarith
      · omega
  · rw [hs, ht]; omega

/-- Rounding to the nearest integer, ties to even, is an odd function. -/
theorem roundHalfEven_neg (t : ℚ) : roundHalfEven (-t) = -roundHalfEven t := by
  by_cases hint : (⌊t⌋ : ℚ) = t
  · rw [← hint, ← Int.cast_neg, roundHalfEven_intCast, roundHalfEven_intCast]
  · have h1 : (⌊t⌋ : ℚ) < t := lt_of_le_of_ne (Int.floor_le t) hint
    have h2 : t < ⌊t⌋ + 1 := Int.lt_floor_add_one t
    have hfl : ⌊-t⌋ = -⌊t⌋ - 1 := by
      rw [Int.floor_eq_iff]
      push_cast
      constructor <;> linarith
    rcases roundHalfEven_cases t with ⟨ht, ht'⟩ | ⟨ht, ht'⟩ <;>
    rcases roundHalfEven_cases (-t) with ⟨hn, hn'⟩ | ⟨hn, hn'⟩
    · exfalso
      rw [hfl] at hn'
      push_cast at hn'
      rcases ht' with a | ⟨a, a'⟩ <;> rcases hn' with b | ⟨b, b'⟩
      · linarith
      · linarith
      · linarith
      · omega
    · rw [ht, hn, hfl]; ring
    · rw [ht, hn, hfl]; ring
    · exfalso
      rw [hfl] at hn'
      push_cast at hn'
      rcases ht' with a | ⟨a, a'⟩ <;> rcases hn' with b | ⟨b, b'⟩
      · linarith
      · linarith
      · linarith
      · omega

/-- A number below an integer does not round above it. -/
theorem roundHalfEven_le_of_le_int {t : ℚ} {n : ℤ} (h : t ≤ n) : roundHalfEven t ≤ n := by
  have := roundHalfEven_mono h
  rwa [roundHalfEven_intCast] at this

/-- A number above an integer does not round below it. -/
theorem le_roundHalfEven_of_int_le {t : ℚ} {n : ℤ} (h : (n : ℚ) ≤ t) : n ≤ roundHalfEven t := by
  have := roundHalfEven_mono h
  rwa [roundHalfEven_intCast] at this

/-- A number less than one half away from an integer rounds to it. -/
theorem roundHalfEven_eq_of_near (t : ℚ) (n : ℤ) (h1 : (n : ℚ) - 1/2 < t) (h2 : t < n + 1/2) :
    roundHalfEven t = n := by
  have hl : n - 1 ≤ ⌊t⌋ := by
    rw [Int.le_floor]; push_cast; linarith
  have hu : ⌊t⌋ ≤ n := by
    have : ⌊t⌋ < n + 1 := by rw [Int.floor_lt]; push_cast; linarith
    omega
  have hf1 : (⌊t⌋ : ℚ) ≤ t := Int.floor_le t
  have hf2 : t < ⌊t⌋ + 1 := Int.lt_floor_add_one t
  rcases roundHalfEven_cases t with ⟨ht, ht'⟩ | ⟨ht, ht'⟩
  · rw [ht]
    rcases eq_or_lt_of_le hu with h | h
    · exact h
    · exfalso
      have hfl : ⌊t⌋ = n - 1 := by omega
      rw [hfl] at ht'
      push_cast at ht'
      rcases ht' with a | ⟨a, _⟩ <;> linarith
  · rw [ht]
    rcases eq_or_lt_of_le hu with h | h
    · exfalso
      rw [h] at ht'
      rcases ht' with a | ⟨a, _⟩ <;> linarith
    · omega


/-- Powers of two are positive. -/
theorem two_zpow_pos (e : ℤ) : (0 : ℚ) < (2 : ℚ) ^ e := zpow_pos (by norm_num) e

/-- No unit in the last place is below that of the subnormal numbers. -/
theorem ulpExponent_ge (x : ℚ) : -1074 ≤ ulpExponent x := by
  unfold ulpExponent
  have := le_max_right (Int.log 2 |x|) (-1022)
  omega

/-- The unit in the last place depends on the magnitude only. -/
theorem ulpExponent_neg (x : ℚ) : ulpExponent (-x) = ulpExponent x := by
  unfold ulpExponent
  rw [abs_neg]

/-- Rounding to binary64 is an odd function. -/
theorem roundDouble_neg (x : ℚ) : roundDouble (-x) = -roundDouble x := by
  unfold roundDouble
  rw [ulpExponent_neg, neg_div, roundHalfEven_neg]
  push_cast
  ring

/-- Zero is a binary64 number. -/
theorem roundDouble_zero : roundDouble 0 = 0 := by
  unfold roundDouble
  rw [zero_div]
  have : roundHalfEven 0 = 0 := by
    have := roundHalfEven_intCast 0
    simpa using this
  rw [this]
  simp

/-- Rounding on a grid that contains `2 ^ m` does not carry a number below `2 ^ m` above it. -/
theorem round_grid_le (x : ℚ) (E m : ℤ) (hm : E ≤ m) (hx : x ≤ (2 : ℚ) ^ m) :
    (roundHalfEven (x / (2 : ℚ) ^ E) : ℚ) * (2 : ℚ) ^ E ≤ (2 : ℚ) ^ m := by
  have hq := two_zpow_pos E
  have hsplit : (2 : ℚ) ^ m = ((2 ^ (m - E).toNat : ℤ) : ℚ) * (2 : ℚ) ^ E := by
    push_cast
    rw [← zpow_natCast, Int.toNat_of_nonneg (by omega), ← zpow_add₀ (by norm_num)]
    congr 1
    ring
  have hle : x / (2 : ℚ) ^ E ≤ ((2 ^ (m - E).toNat : ℤ) : ℚ) := by
    rw [div_le_iff₀ hq, ← hsplit]
    exact hx
  have := roundHalfEven_le_of_le_int hle
  rw [hsplit]
  exact mul_le_mul_of_nonneg_right (by exact_mod_cast this) (le_of_lt hq)

/-- Rounding on a grid that contains `2 ^ m` does not carry a number above `2 ^ m` below it. -/
theorem le_round_grid (x : ℚ) (E m : ℤ) (hm : E ≤ m) (hx : (2 : ℚ) ^ m ≤ x) :
    (2 : ℚ) ^ m ≤ (roundHalfEven (x / (2 : ℚ) ^ E) : ℚ) * (2 : ℚ) ^ E := by
  have hq := two_zpow_pos E
  have hsplit : (2 : ℚ) ^ m = ((2 ^ (m - E).toNat : ℤ) : ℚ) * (2 : ℚ) ^ E := by
    push_cast
    rw [← zpow_natCast, Int.toNat_of_nonneg (by omega), ← zpow_add₀ (by norm_num)]
    congr 1
    ring
  have hle : ((2 ^ (m - E).toNat : ℤ) : ℚ) ≤ x / (2 : ℚ) ^ E := by
    rw [le_div_iff₀ hq, ← hsplit]
    exact hx
  have := le_roundHalfEven_of_int_le hle
  rw [hsplit]
  exact mul_le_mul_of_nonneg_right (by exact_mod_cast this) (le_of_lt hq)

/-- A positive number is at least the power of two of its binade. -/
theorem log_le_self_pow (x : ℚ) (hx : 0 < x) : (2 : ℚ) ^ Int.log 2 x ≤ x := by
  have := Int.zpow_log_le_self (b := 2) (by norm_num) hx
  simpa using this

/-- A number is below the next power of two after its binade. -/
theorem lt_log_succ_pow (x : ℚ) : x < (2 : ℚ) ^ (Int.log 2 x + 1) := by
  have := Int.lt_zpow_succ_log_self (b := 2) (by norm_num) x
  simpa using this

/-- Rounding to binary64 is monotone on the positive numbers. -/
theorem roundDouble_mono_pos {x y : ℚ} (hx : 0 < x) (hxy : x ≤ y) :
    roundDouble x ≤ roundDouble y := by
  have hy : 0 < y := lt_of_lt_of_le hx hxy
  have hlog : Int.log 2 x ≤ Int.log 2 y := Int.log_mono_right hx hxy
  have hEx : ulpExponent x = max (Int.log 2 x) (-1022) - 52 := by
    unfold ulpExponent; rw [abs_of_pos hx]
  have hEy : ulpExponent y = max (Int.log 2 y) (-1022) - 52 := by
    unfold ulpExponent; rw [abs_of_pos hy]
  have hE : ulpExponent x ≤ ulpExponent y := by
    rw [hEx, hEy]
    have := max_le_max hlog (le_refl (-1022 : ℤ))
    omega
  rcases eq_or_lt_of_le hE with heq | hlt
  · unfold roundDouble
    rw [heq]
    have hq := two_zpow_pos (ulpExponent y)
    apply mul_le_mul_of_nonneg_right _ (le_of_lt hq)
    exact_mod_cast roundHalfEven_mono (div_le_div_of_nonneg_right hxy (le_of_lt hq))
  · have h1 : -1022 < Int.log 2 y := by
      by_contra hcon
      rw [hEy, max_eq_right (not_lt.mp hcon)] at hlt
      have := ulpExponent_ge x
      omega
    have hEy2 : ulpExponent y = Int.log 2 y - 52 := by
      rw [hEy, max_eq_left (le_of_lt h1)]
    have h2 : Int.log 2 x + 1 ≤ Int.log 2 y := by
      have := le_max_left (Int.log 2 x) (-1022)
      rw [hEx, hEy2] at hlt
      omega
    have hxB : x ≤ (2 : ℚ) ^ Int.log 2 y :=
      le_trans (le_of_lt (lt_log_succ_pow x)) (zpow_le_zpow_right₀ (by norm_num) h2)
    have hBy : (2 : ℚ) ^ Int.log 2 y ≤ y := log_le_self_pow y hy
    have hExB : ulpExponent x ≤ Int.log 2 y := by
      rw [hEy2] at hlt; omega
    unfold roundDouble
    exact le_trans (round_grid_le x _ _ hExB hxB)
      (le_round_grid y _ _ (by rw [hEy2]; omega) hBy)

/-- A number that is not negative does not round below zero. -/
theorem roundDouble_nonneg {x : ℚ} (hx : 0 ≤ x) : 0 ≤ roundDouble x := by
  unfold roundDouble
  have hq := two_zpow_pos (ulpExponent x)
  apply mul_nonneg _ (le_of_lt hq)
  have h : ((0 : ℤ) : ℚ) ≤ x / (2 : ℚ) ^ ulpExponent x := by
    simpa using div_nonneg hx (le_of_lt hq)
  exact_mod_cast le_roundHalfEven_of_int_le h

/-- Rounding to binary64 is monotone. -/
theorem roundDouble_mono {x y : ℚ} (hxy : x ≤ y) : roundDouble x ≤ roundDouble y := by
  rcases lt_trichotomy 0 x with hx | hx | hx
  · exact roundDouble_mono_pos hx hxy
  · rw [← hx, roundDouble_zero]
    exact roundDouble_nonneg (by rw [hx]; exact hxy)
  · rcases le_or_lt 0 y with hy | hy
    · have h1 : roundDouble x ≤ 0 := by
        have := roundDouble_nonneg (le_of_lt (neg_pos.mpr hx))
        rw [roundDouble_neg] at this
        linarith
      exact le_trans h1 (roundDouble_nonneg hy)
    · have := roundDouble_mono_pos (neg_pos.mpr hy) (neg_le_neg hxy)
      rw [roundDouble_neg, roundDouble_neg] at this
      linarith

/-- A number `k * 2 ^ g` with `|k| < 2 ^ 53` and `g ≥ -1074` is a binary64 number: rounding leaves
it as it is. -/
theorem roundDouble_of_form (k g : ℤ) (hk : |k| < 2 ^ 53) (hg : -1074 ≤ g) :
    roundDouble ((k : ℚ) * (2 : ℚ) ^ g) = (k : ℚ) * (2 : ℚ) ^ g := by
  by_cases hk0 : k = 0
  · subst hk0
    simp [roundDouble_zero]
  have hgpos := two_zpow_pos g
  have habs : |(k : ℚ) * (2 : ℚ) ^ g| = (|k| : ℤ) * (2 : ℚ) ^ g := by
    rw [abs_mul, abs_of_pos hgpos]
    push_cast
    rfl
  have hpos : 0 < |(k : ℚ) * (2 : ℚ) ^ g| := by
    rw [habs]
    apply mul_pos _ hgpos
    exact_mod_cast abs_pos.mpr hk0
  have hlt : |(k : ℚ) * (2 : ℚ) ^ g| < (2 : ℚ) ^ (53 + g) := by
    rw [habs, zpow_add₀ (by norm_num)]
    apply mul_lt_mul_of_pos_right _ hgpos
    exact_mod_cast hk
  have hlog : Int.log 2 |(k : ℚ) * (2 : ℚ) ^ g| < 53 + g := by
    rw [← Int.lt_zpow_iff_log_lt (by norm_num) hpos]
    simpa using hlt
  have hE : ulpExponent ((k : ℚ) * (2 : ℚ) ^ g) ≤ g := by
    unfold ulpExponent
    have := max_le (a := Int.log 2 |(k : ℚ) * (2 : ℚ) ^ g|) (b := (-1022 : ℤ)) (c := 52 + g)
      (by omega) (by omega)
    omega
  unfold roundDouble
  generalize ulpExponent ((k : ℚ) * (2 : ℚ) ^ g) = E at hE
  have hq := two_zpow_pos E
  have hquot : (k : ℚ) * (2 : ℚ) ^ g / (2 : ℚ) ^ E = ((k * 2 ^ (g - E).toNat : ℤ) : ℚ) := by
    push_cast
    rw [← zpow_natCast, Int.toNat_of_nonneg (by omega), zpow_sub₀ (by norm_num)]
    ring
  rw [hquot, roundHalfEven_intCast]
  push_cast
  rw [← zpow_natCast, Int.toNat_of_nonneg (by omega), zpow_sub₀ (by norm_num)]
  field_simp

/-- Rounding a rounded number changes nothing. -/
theorem roundDouble_idem (x : ℚ) : roundDouble (roundDouble x) = roundDouble x := by
  by_cases hx0 : x = 0
  · subst hx0
    rw [roundDouble_zero, roundDouble_zero]
  have hpos : 0 < |x| := abs_pos.mpr hx0
  have hE := ulpExponent_ge x
  have hq := two_zpow_pos (ulpExponent x)
  have hlt : |x| < (2 : ℚ) ^ (ulpExponent x + 53) := by
    have h1 := lt_log_succ_pow |x|
    refine lt_of_lt_of_le h1 (zpow_le_zpow_right₀ (by norm_num) ?_)
    unfold ulpExponent
    have := le_max_left (Int.log 2 |x|) (-1022)
    omega
  have hquot : |x / (2 : ℚ) ^ ulpExponent x| < ((2 ^ 53 : ℤ) : ℚ) := by
    rw [abs_div, abs_of_pos hq, div_lt_iff₀ hq]
    rw [zpow_add₀ (by norm_num)] at hlt
    push_cast
    rw [mul_comm]
    exact_mod_cast hlt
  have hk1 : roundHalfEven (x / (2 : ℚ) ^ ulpExponent x) ≤ 2 ^ 53 :=
    roundHalfEven_le_of_le_int (le_of_lt (lt_of_le_of_lt (le_abs_self _) hquot))
  have hk2 : -(2 ^ 53) ≤ roundHalfEven (x / (2 : ℚ) ^ ulpExponent x) := by
    apply le_roundHalfEven_of_int_le
    have := neg_abs_le (x / (2 : ℚ) ^ ulpExponent x)
    push_cast
    push_cast at hquot
    linarith
  unfold roundDouble at *
  generalize roundHalfEven (x / (2 : ℚ) ^ ulpExponent x) = k at hk1 hk2
  generalize ulpExponent x = E at hE
  rcases eq_or_lt_of_le hk1 with h | h
  · subst h
    have : (((2 ^ 53 : ℤ) : ℚ)) * (2 : ℚ) ^ E = ((1 : ℤ) : ℚ) * (2 : ℚ) ^ (E + 53) := by
      rw [zpow_add₀ (by norm_num)]
      push_cast
      norm_num
      ring
    rw [this]
    exact roundDouble_of_form 1 (E + 53) (by norm_num) (by omega)
  · rcases eq_or_lt_of_le hk2 with h' | h'
    · subst h'
      have : (((-(2 ^ 53) : ℤ)) : ℚ) * (2 : ℚ) ^ E = ((-1 : ℤ) : ℚ) * (2 : ℚ) ^ (E + 53) := by
        rw [zpow_add₀ (by norm_num)]
        push_cast
        norm_num
        ring
      rw [this]
      exact roundDouble_of_form (-1) (E + 53) (by norm_num) (by omega)
    · exact roundDouble_of_form k E (by rw [abs_lt]; omega) hE

/-- How to compute a rounding: name the binade `2 ^ e ≤ |x| < 2 ^ (e + 1)` of a normal number and
the integer nearest to `x / 2 ^ (e - 52)`. -/
theorem roundDouble_eq (x : ℚ) (e n : ℤ) (he : -1022 ≤ e) (h1 : (2 : ℚ) ^ e ≤ |x|)
    (h2 : |x| < (2 : ℚ) ^ (e + 1))
    (hn1 : (n : ℚ) - 1/2 < x / (2 : ℚ) ^ (e - 52)) (hn2 : x / (2 : ℚ) ^ (e - 52) < n + 1/2) :
    roundDouble x = (n : ℚ) * (2 : ℚ) ^ (e - 52) := by
  have hpos : 0 < |x| := lt_of_lt_of_le (two_zpow_pos e) h1
  have hlog : Int.log 2 |x| = e := by
    have ha : e ≤ Int.log 2 |x| := by
      rw [← Int.zpow_le_iff_le_log (by norm_num) hpos]
      simpa using h1
    have hb : Int.log 2 |x| < e + 1 := by
      rw [← Int.lt_zpow_iff_log_lt (by norm_num) hpos]
      simpa using h2
    omega
  have hE : ulpExponent x = e - 52 := by
    unfold ulpExponent
    rw [hlog, max_eq_left he]
  unfold roundDouble
  rw [hE, roundHalfEven_eq_of_near _ n hn1 hn2]

/-- A rational with numerator below `2 ^ 53` in magnitude over a power of two whose exponent is
at most 1074 is a binary64 number. -/
theorem roundDouble_dyadic (k : ℤ) (n : ℕ) (hk : |k| < 2 ^ 53) (hn : n ≤ 1074) :
    roundDouble ((k : ℚ) / 2 ^ n) = (k : ℚ) / 2 ^ n := by
  have h : (k : ℚ) / 2 ^ n = (k : ℚ) * (2 : ℚ) ^ (-(n : ℤ)) := by
    rw [zpow_neg, zpow_natCast, div_eq_mul_inv]
  rw [h]
  exact roundDouble_of_form k (-(n : ℤ)) hk (by omega)

/-- The `double` quotient `8192.0 / 48000`. -/
theorem roundDouble_fTime_48k :
    roundDouble (64 / 375) = 6148914691236517 / 36028797018963968 := by
  have h := roundDouble_eq (64 / 375) (-3) 6148914691236517 (by norm_num)
    (by rw [abs_of_pos (by norm_num)]; norm_num)
    (by rw [abs_of_pos (by norm_num)]; norm_num)
    (by norm_num) (by norm_num)
  rw [h]
  norm_num

/-! ## Facts about `tick()` in `double` arithmetic -/

namespace WebAudioBackend

/-- The block duration computed in `double` is not negative. -/
theorem fTimeD_nonneg (s : WebAudioBackend) : 0 ≤ s.fTimeD := by
  unfold fTimeD
  apply roundDouble_nonneg
  unfold UPD_SIZE
  positivity

/-- The raised cursor is at least the clock reading and at least the cursor. -/
theorem raised_ge (s : WebAudioBackend) (a : ℚ) : a ≤ s.raised a ∧ s.mTime ≤ s.raised a := by
  unfold raised
  constructor <;> split_ifs <;> linarith

/-- The raised cursor is a `double` when the cursor and the clock reading are. -/
theorem raised_isDouble (s : WebAudioBackend) (a : ℚ) (hm : roundDouble s.mTime = s.mTime)
    (ha : roundDouble a = a) : roundDouble (s.raised a) = s.raised a := by
  unfold raised
  split_ifs
  · exact ha
  · exact hm

/-- What one `tickD` does to the cursor. -/
theorem tickD_mTime (s t : WebAudioBackend) (a : ℚ) (h : s.tickD a = some t) :
    t.mTime = if s.submitsD a then roundDouble (s.raised a + s.fTimeD) else s.raised a := by
  obtain ⟨⟨ctx, hc⟩, hf⟩ := tickD_some_inv s t a h
  rw [tickD_eq s a ctx hc hf] at h
  simp only [Option.some.injEq] at h
  subst h
  cases s.submitsD a <;> simp [afterSubmitD]

/-- The method leaves the sample rate alone and keeps a context in place. -/
theorem tickD_keeps (s t : WebAudioBackend) (a : ℚ) (h : s.tickD a = some t) :
    t.mFrequency = s.mFrequency ∧ ∃ ctx, t.WebAudio_ALSoft = some ctx := by
  obtain ⟨⟨ctx, hc⟩, hf⟩ := tickD_some_inv s t a h
  rw [tickD_eq s a ctx hc hf] at h
  simp only [Option.some.injEq] at h
  subst h
  cases s.submitsD a <;> simp [afterSubmitD, hc]

/-- The block duration is the same after a `tickD`. -/
theorem tickD_fTimeD (s t : WebAudioBackend) (a : ℚ) (h : s.tickD a = some t) :
    t.fTimeD = s.fTimeD := by
  unfold fTimeD
  rw [(tickD_keeps s t a h).1]

/-- The cursor stays a `double`. -/
theorem tickD_isDouble (s t : WebAudioBackend) (a : ℚ) (h : s.tickD a = some t)
    (hm : roundDouble s.mTime = s.mTime) (ha : roundDouble a = a) :
    roundDouble t.mTime = t.mTime := by
  rw [tickD_mTime s t a h]
  split_ifs
  · exact roundDouble_idem _
  · exact raised_isDouble s a hm ha

/-- The cursor never moves backwards in a `tickD`. -/
theorem tickD_mono (s t : WebAudioBackend) (a : ℚ) (h : s.tickD a = some t)
    (hm : roundDouble s.mTime = s.mTime) (ha : roundDouble a = a) : s.mTime ≤ t.mTime := by
  rw [tickD_mTime s t a h]
  have hr := (raised_ge s a).2
  split_ifs
  · have h1 : roundDouble (s.raised a) ≤ roundDouble (s.raised a + s.fTimeD) :=
      roundDouble_mono (by linarith [fTimeD_nonneg s])
    rw [raised_isDouble s a hm ha] at h1
    linarith
  · exact hr

/-- A submitting `tickD` leaves the cursor at the rounded sum of its start time and the block
duration, which is at least the rounded sum taken from the clock reading or from the old
cursor. -/
theorem tickD_submit_lower (s t : WebAudioBackend) (a : ℚ) (h : s.tickD a = some t)
    (hs : s.submitsD a = true) :
    t.mTime = roundDouble (s.raised a + s.fTimeD) ∧
    roundDouble (a + s.fTimeD) ≤ t.mTime ∧ roundDouble (s.mTime + s.fTimeD) ≤ t.mTime := by
  have hm := tickD_mTime s t a h
  rw [hs] at hm
  simp only [if_true] at hm
  obtain ⟨h1, h2⟩ := raised_ge s a
  rw [hm]
  exact ⟨rfl, roundDouble_mono (by linarith), roundDouble_mono (by linarith)⟩

/-- A `tickD` submits only when the cursor is below the rounded sum of the clock reading and the
block duration. -/
theorem submitsD_upper (s : WebAudioBackend) (a : ℚ) (hs : s.submitsD a = true) :
    s.mTime < roundDouble (a + s.fTimeD) := by
  have h : s.raised a < roundDouble (a + s.fTimeD) := by simpa [submitsD] using hs
  exact lt_of_le_of_lt (raised_ge s a).2 h

/-- The observable `tickSubmittedD` agrees with the test `submitsD` of a tick that returns. -/
theorem tickSubmittedD_iff (s : WebAudioBackend) (a : ℚ) :
    s.tickSubmittedD a = true ↔ (∃ t, s.tickD a = some t) ∧ s.submitsD a = true := by
  unfold tickSubmittedD
  cases ht : s.tickD a with
  | none => simp
  | some t =>
    obtain ⟨⟨ctx, hc⟩, hf⟩ := tickD_some_inv s t a ht
    rw [tickD_eq s a ctx hc hf] at ht
    simp only [Option.some.injEq] at ht
    subst ht
    cases hs : s.submitsD a with
    | true =>
      have hne : (s.afterSubmitD ctx a).mDevice ≠ s.mDevice := by
        intro he
        have := congrArg (fun d => d.renderLog.length) he
        simp [afterSubmitD, DeviceBase.renderSamples] at this
      simp [hne]
    | false =>
      simp [hc]

/-- A run over a concatenation is the run over the first part followed by the run over the
second. -/
theorem ticksD_append (xs ys : List ℚ) :
    ∀ s : WebAudioBackend, s.ticksD (xs ++ ys) = (s.ticksD xs).bind fun t => t.ticksD ys := by
  induction xs with
  | nil => intro s; simp [ticksD]
  | cons x xs ih =>
    intro s
    simp only [List.cons_append, ticksD]
    cases s.tickD x with
    | none => simp
    | some t => simp [ih t]

/-- A run of ticks over `double` clock readings, started with a `double` cursor, keeps the rate,
never moves the cursor backwards and leaves a `double` cursor. -/
theorem ticksD_mono (xs : List ℚ) :
    ∀ s t : WebAudioBackend, roundDouble s.mTime = s.mTime → (∀ c ∈ xs, roundDouble c = c) →
      s.ticksD xs = some t →
      t.mFrequency = s.mFrequency ∧ s.mTime ≤ t.mTime ∧ roundDouble t.mTime = t.mTime := by
  induction xs with
  | nil =>
    intro s t hm _ h
    simp only [ticksD, Option.some.injEq] at h
    subst h
    exact ⟨rfl, le_refl _, hm⟩
  | cons x xs ih =>
    intro s t hm hc h
    simp only [ticksD] at h
    cases h1 : s.tickD x with
    | none => simp [h1] at h
    | some t1 =>
      simp only [h1, Option.some_bind] at h
      have hx : roundDouble x = x := hc x (by simp)
      have hk := tickD_keeps s t1 x h1
      have hmo := tickD_mono s t1 x h1 hm hx
      have hd := tickD_isDouble s t1 x h1 hm hx
      obtain ⟨hfr, hle, hdt⟩ := ih t1 t hd (fun c hcm => hc c (by simp [hcm])) h
      exact ⟨by rw [hfr, hk.1], le_trans hmo hle, hdt⟩

/-- The state before tick `j` is reached from the state before tick `i ≤ j` by the ticks in
between. -/
theorem ticksD_take_le (s t u : WebAudioBackend) (clocks : List ℚ) (i j : Nat) (hij : i ≤ j)
    (hi : s.ticksD (clocks.take i) = some t) (hj : s.ticksD (clocks.take j) = some u) :
    t.ticksD ((clocks.take j).drop i) = some u := by
  have hsplit : clocks.take j = clocks.take i ++ (clocks.take j).drop i := by
    have h1 : (clocks.take j).take i = clocks.take i := by
      rw [List.take_take, Nat.min_eq_left hij]
    rw [← h1, List.take_append_drop]
  rw [hsplit, ticksD_append, hi] at hj
  simpa using hj

/-- What it means for tick `i` of a run to submit: the run up to it returns a state `t`, the
tick itself returns `u`, the test `submitsD` holds, and `u` is the state before tick `i + 1`. -/
theorem submitsAtD_spec (s : WebAudioBackend) (clocks : List ℚ) (i : Nat) (a : ℚ)
    (ha : clocks[i]? = some a) (h : s.submitsAtD clocks i = true) :
    ∃ t u, s.ticksD (clocks.take i) = some t ∧ t.tickD a = some u ∧ t.submitsD a = true ∧
      s.ticksD (clocks.take (i + 1)) = some u := by
  unfold submitsAtD at h
  rw [ha] at h
  cases ht : s.ticksD (clocks.take i) with
  | none => simp [ht] at h
  | some t =>
    simp only [ht] at h
    obtain ⟨⟨u, hu⟩, hs⟩ := (tickSubmittedD_iff t a).mp h
    refine ⟨t, u, rfl, hu, hs, ?_⟩
    have htake : clocks.take (i + 1) = clocks.take i ++ [a] := by
      rw [List.take_succ, ha]
      rfl
    rw [htake, ticksD_append, ht]
    simp [ticksD, hu]

/-- If tick `i` submits at clock reading `a`, then before any later tick `j` the cursor is at
least the rounded sum of `a` and the block duration, and at least the rounded sum of the cursor
before tick `i` and the block duration. -/
theorem cursor_after_submitD (s v : WebAudioBackend) (clocks : List ℚ) (i j : Nat) (a : ℚ)
    (hm : roundDouble s.mTime = s.mTime) (hclk : ∀ c ∈ clocks, roundDouble c = c)
    (hij : i < j) (ha : clocks[i]? = some a) (hi : s.submitsAtD clocks i = true)
    (hv : s.ticksD (clocks.take j) = some v) :
    ∃ t, s.ticksD (clocks.take i) = some t ∧ t.mFrequency = s.mFrequency ∧
      v.mFrequency = s.mFrequency ∧
      roundDouble (a + s.fTimeD) ≤ v.mTime ∧ roundDouble (t.mTime + s.fTimeD) ≤ v.mTime := by
  obtain ⟨t, u, ht, hu, hs, hnext⟩ := submitsAtD_spec s clocks i a ha hi
  have htake : ∀ n, ∀ c ∈ clocks.take n, roundDouble c = c :=
    fun n c hc => hclk c (List.mem_of_mem_take hc)
  obtain ⟨hft, _, hdt⟩ := ticksD_mono _ s t hm (htake i) ht
  obtain ⟨hfu, _, hdu⟩ := ticksD_mono _ s u hm (htake (i + 1)) hnext
  have hlow := tickD_submit_lower t u a hu hs
  have hrun := ticksD_take_le s u v clocks (i + 1) j hij hnext hv
  obtain ⟨hfv, hle, _⟩ := ticksD_mono _ u v hdu
    (fun c hc => hclk c (List.mem_of_mem_take (List.mem_of_mem_drop hc))) hrun
  have hfT : t.fTimeD = s.fTimeD := by unfold fTimeD; rw [hft]
  rw [hfT] at hlow
  exact ⟨t, ht, hft, by rw [hfv, hfu], le_trans hlow.2.1 hle, le_trans hlow.2.2 hle⟩

/-- After any `tickD` at a `double` reading `a` the cursor is at least `a` and at least the
rounded sum of `a` and the block duration. -/
theorem tickD_reaches (s t : WebAudioBackend) (a : ℚ) (h : s.tickD a = some t)
    (ha : roundDouble a = a) : a ≤ t.mTime ∧ roundDouble (a + t.fTimeD) ≤ t.mTime := by
  have hsum : a ≤ roundDouble (a + s.fTimeD) := by
    have := roundDouble_mono (show a ≤ a + s.fTimeD by linarith [fTimeD_nonneg s])
    rwa [ha] at this
  rw [tickD_fTimeD s t a h, tickD_mTime s t a h]
  cases hs : s.submitsD a with
  | true =>
    simp only [if_true]
    have h1 : roundDouble (a + s.fTimeD) ≤ roundDouble (s.raised a + s.fTimeD) :=
      roundDouble_mono (by linarith [(raised_ge s a).1])
    exact ⟨le_trans hsum h1, h1⟩
  | false =>
    simp only [Bool.false_eq_true, if_false]
    have : ¬ (s.raised a < roundDouble (a + s.fTimeD)) := by simpa [submitsD] using hs
    exact ⟨(raised_ge s a).1, not_lt.mp this⟩

/-- A `tickD` at a reading the cursor is already a full block ahead of changes nothing. -/
theorem tickD_fixed (t : WebAudioBackend) (a : ℚ) (ctx : AudioContext)
    (hctx : t.WebAudio_ALSoft = some ctx) (hf : t.mFrequency ≠ 0)
    (h1 : a ≤ t.mTime) (h2 : roundDouble (a + t.fTimeD) ≤ t.mTime) : t.tickD a = some t := by
  have hr : t.raised a = t.mTime := by
    unfold raised
    rw [if_neg]
    intro hgt
    linarith
  have hs : t.submitsD a = false := by
    simp only [submitsD, hr, decide_eq_false_iff_not, not_lt]
    exact h2
  rw [tickD_eq t a ctx hctx hf, hs, hr]
  rfl

/-- Ticks repeated at a reading the cursor is a full block ahead of change nothing. -/
theorem ticksD_fixed (n : Nat) (t : WebAudioBackend) (a : ℚ) (ctx : AudioContext)
    (hctx : t.WebAudio_ALSoft = some ctx) (hf : t.mFrequency ≠ 0)
    (h1 : a ≤ t.mTime) (h2 : roundDouble (a + t.fTimeD) ≤ t.mTime) :
    t.ticksD (List.replicate n a) = some t := by
  induction n with
  | zero => rfl
  | succ n ih =>
    simp only [List.replicate_succ, ticksD, tickD_fixed t a ctx hctx hf h1 h2, Option.some_bind]
    exact ih

/-- The `stop` method changes nothing `tickD` reads but the context's `suspended` flag, which
`tickD` carries along unread. -/
theorem tickD_stop (s : WebAudioBackend) (a : ℚ) :
    s.stop.tickD a = (s.tickD a).map stop := by
  cases hc : s.WebAudio_ALSoft with
  | none => simp [tickD, stop, hc]
  | some ctx =>
    by_cases hf : s.mFrequency = 0
    · simp [tickD, stop, hc, hf]
    · have h1 := tickD_eq s a ctx hc hf
      have hc2 : s.stop.WebAudio_ALSoft = some { ctx with suspended := true } := by
        simp [stop, hc]
      have hf2 : s.stop.mFrequency ≠ 0 := by simpa [stop, hc] using hf
      have h2 := tickD_eq s.stop a _ hc2 hf2
      rw [h1, h2]
      have hsub : s.stop.submitsD a = s.submitsD a := by
        simp [submitsD, raised, fTimeD, stop, hc]
      rw [hsub]
      cases s.submitsD a <;> simp [afterSubmitD, stop, hc, raised, fTimeD]

/-- What one `tickD` does to the list of started buffer sources: a submitting tick starts one
source at the raised cursor, any other tick starts none. -/
theorem tickD_started (s t : WebAudioBackend) (a : ℚ) (h : s.tickD a = some t) :
    t.started = if s.submitsD a then
      (⟨2, UPD_SIZE, s.mFrequency, s.raised a⟩ : BufferSource) :: s.started else s.started := by
  obtain ⟨⟨ctx, hc⟩, hf⟩ := tickD_some_inv s t a h
  rw [tickD_eq s a ctx hc hf] at h
  simp only [Option.some.injEq] at h
  subst h
  cases s.submitsD a <;> simp [afterSubmitD, started, hc]

/-- With a context in place and a rate that is not zero every run of ticks returns. -/
theorem ticksD_returns (xs : List ℚ) :
    ∀ s : WebAudioBackend, s.mFrequency ≠ 0 → (∃ ctx, s.WebAudio_ALSoft = some ctx) →
      ∃ u, s.ticksD xs = some u := by
  induction xs with
  | nil => intro s _ _; exact ⟨s, rfl⟩
  | cons x xs ih =>
    intro s hf hctx
    obtain ⟨ctx, hc⟩ := hctx
    have ht := tickD_eq s x ctx hc hf
    generalize (if s.submitsD x then s.afterSubmitD ctx x
      else { s with mTime := s.raised x }) = t1 at ht
    have hk := tickD_keeps s t1 x ht
    obtain ⟨u, hu⟩ := ih t1 (by rw [hk.1]; exact hf) hk.2
    exact ⟨u, by simp [ticksD, ht, hu]⟩

/-- Every block a run of ticks submits starts no later than the cursor the run leaves behind, and
so does the rounded sum of its start time and the block duration. -/
theorem ticksD_started (xs : List ℚ) :
    ∀ s u : WebAudioBackend, roundDouble s.mTime = s.mTime → (∀ c ∈ xs, roundDouble c = c) →
      s.ticksD xs = some u →
      ∃ new, u.started = new ++ s.started ∧
        ∀ p ∈ new, p.startAt ≤ u.mTime ∧ roundDouble (p.startAt + s.fTimeD) ≤ u.mTime := by
  induction xs with
  | nil =>
    intro s u _ _ h
    simp only [ticksD, Option.some.injEq] at h
    subst h
    exact ⟨[], rfl, by simp⟩
  | cons x xs ih =>
    intro s u hm hc h
    simp only [ticksD] at h
    cases h1 : s.tickD x with
    | none => simp [h1] at h
    | some t1 =>
      simp only [h1, Option.some_bind] at h
      have hx : roundDouble x = x := hc x (by simp)
      have hrest : ∀ c ∈ xs, roundDouble c = c := fun c hcm => hc c (by simp [hcm])
      have hft := tickD_fTimeD s t1 x h1
      have hd := tickD_isDouble s t1 x h1 hm hx
      obtain ⟨new1, hnew1, hall1⟩ := ih t1 u hd hrest h
      have hmono := (ticksD_mono xs t1 u hd hrest h).2.1
      have hst := tickD_started s t1 x h1
      cases hs : s.submitsD x with
      | false =>
        rw [hs] at hst
        simp only [Bool.false_eq_true, if_false] at hst
        refine ⟨new1, by rw [hnew1, hst], ?_⟩
        intro p hp
        rw [← hft]
        exact hall1 p hp
      | true =>
        rw [hs] at hst
        simp only [if_true] at hst
        refine ⟨new1 ++ [⟨2, UPD_SIZE, s.mFrequency, s.raised x⟩], by rw [hnew1, hst]; simp, ?_⟩
        intro p hp
        rcases List.mem_append.mp hp with hp1 | hp2
        · rw [← hft]
          exact hall1 p hp1
        · simp only [List.mem_singleton] at hp2
          subst hp2
          have hlow := tickD_submit_lower s t1 x h1 hs
          have hrd := raised_isDouble s x hm hx
          have hge : s.raised x ≤ roundDouble (s.raised x + s.fTimeD) := by
            have := roundDouble_mono (show s.raised x ≤ s.raised x + s.fTimeD by
              linarith [fTimeD_nonneg s])
            rwa [hrd] at this
          show s.raised x ≤ u.mTime ∧ roundDouble (s.raised x + s.fTimeD) ≤ u.mTime
          rw [← hlow.1]
          rw [← hlow.1] at hge
          exact ⟨le_trans hge hmono, hmono⟩

end WebAudioBackend

/-! ## Concrete roundings -/

/-- The number 1 is a `double`. -/
theorem roundDouble_one : roundDouble 1 = 1 := by
  have := roundDouble_dyadic 1 0 (by norm_num) (by norm_num)
  norm_num at this
  exact this

/-- The number 2 is a `double`. -/
theorem roundDouble_two : roundDouble 2 = 2 := by
  have := roundDouble_dyadic 2 0 (by norm_num) (by norm_num)
  norm_num at this
  exact this

/-- The number 1/2 is a `double`. -/
theorem roundDouble_half : roundDouble (1/2) = 1/2 := by
  have := roundDouble_dyadic 1 1 (by norm_num) (by norm_num)
  norm_num at this
  exact this

/-- The number 3/2 is a `double`. -/
theorem roundDouble_three_halves : roundDouble (3/2) = 3/2 := by
  have := roundDouble_dyadic 3 1 (by norm_num) (by norm_num)
  norm_num at this
  exact this

/-- The number 5/2 is a `double`. -/
theorem roundDouble_five_halves : roundDouble (5/2) = 5/2 := by
  have := roundDouble_dyadic 5 1 (by norm_num) (by norm_num)
  norm_num at this
  exact this

/-- The number 1/4 is a `double`. -/
theorem roundDouble_quarter : roundDouble (1/4) = 1/4 := by
  have := roundDouble_dyadic 1 2 (by norm_num) (by norm_num)
  norm_num at this
  exact this

/-- The number 3/4 is a `double`. -/
theorem roundDouble_three_quarters : roundDouble (3/4) = 3/4 := by
  have := roundDouble_dyadic 3 2 (by norm_num) (by norm_num)
  norm_num at this
  exact this

/-- The number 1/8 is a `double`. -/
theorem roundDouble_eighth : roundDouble (1/8) = 1/8 := by
  have := roundDouble_dyadic 1 3 (by norm_num) (by norm_num)
  norm_num at this
  exact this

/-- The number 5/8 is a `double`. -/
theorem roundDouble_five_eighths : roundDouble (5/8) = 5/8 := by
  have := roundDouble_dyadic 5 3 (by norm_num) (by norm_num)
  norm_num at this
  exact this

/-- The `double` quotient `8192.0 / 48000` is a `double`. -/
theorem roundDouble_fTime_48k_idem :
    roundDouble (6148914691236517 / 36028797018963968) =
      6148914691236517 / 36028797018963968 := by
  have := roundDouble_dyadic 6148914691236517 55 (by norm_num) (by norm_num)
  norm_num at this
  exact this

/-- The `double` sum `0.5 + 8192.0 / 48000`: the exact sum lies a quarter of a unit in the last
place above it. -/
theorem roundDouble_half_plus_fTime_48k :
    roundDouble (24163313200718501 / 36028797018963968) =
      6040828300179625 / 9007199254740992 := by
  have h := roundDouble_eq (24163313200718501 / 36028797018963968) (-1) 6040828300179625
    (by norm_num)
    (by rw [abs_of_pos (by norm_num)]; norm_num)
    (by rw [abs_of_pos (by norm_num)]; norm_num)
    (by norm_num) (by norm_num)
  rw [h]
  norm_num

/-- At 48000 Hz and clock reading 1/8 the guard of `tick` holds for the cursor
`8192.0 / 48000`: the `double` sum of the reading and the block duration is at least 1/4. -/
theorem guard_eighth_48k :
    (6148914691236517 / 36028797018963968 : ℚ) <
      roundDouble (10652514318607013 / 36028797018963968) := by
  have := roundDouble_mono (show (1/4 : ℚ) ≤ 10652514318607013 / 36028797018963968 by norm_num)
  rw [roundDouble_quarter] at this
  refine lt_of_lt_of_le ?_ this
  norm_num

/-- At 48000 Hz and clock reading 5/8 the guard of `tick` holds for the cursor
`0.5 + 8192.0 / 48000`: the `double` sum of the reading and the block duration is at least
3/4. -/
theorem guard_five_eighths_48k :
    (6040828300179625 / 9007199254740992 : ℚ) <
      roundDouble (28666912828088997 / 36028797018963968) := by
  have := roundDouble_mono (show (3/4 : ℚ) ≤ 28666912828088997 / 36028797018963968 by norm_num)
  rw [roundDouble_three_quarters] at this
  refine lt_of_lt_of_le ?_ this
  norm_num

/-! ## Facts about `mix` -/

/-- Provisioning keeps the source voice. -/
theorem XAudio2Backend.provision_source (s : XAudio2Backend) (ulen region : Nat)
    (allocOk : Bool) : (s.provision ulen region allocOk).source = s.source := by
  unfold XAudio2Backend.provision
  split <;> rfl

/-- With a frame size that is not zero, an `assert` that holds or is compiled out, a source
voice, and either no frame to render or a render buffer, `mix` returns, and its result is the
provisioned state with one more block rendered and, when the submission succeeds, one more
buffer queued. -/
theorem XAudio2Backend.mix_eq (assertsOn : Bool) (core : Core) (s : XAudio2Backend) (len : Int)
    (allocOk submitOk : Bool) (voice : IXAudio2SourceVoice)
    (hf : s.mFrameSize ≠ 0)
    (ha : assertsOn = true → (len % (UINT_MOD : Int)).toNat % s.mFrameSize = 0)
    (hb : ¬ ((s.provision (len % (UINT_MOD : Int)).toNat
      ((len % (UINT_MOD : Int)).toNat / s.mFrameSize * s.mFrameSize) allocOk).mBuffer = none ∧
        (len % (UINT_MOD : Int)).toNat / s.mFrameSize ≠ 0))
    (hv : s.source = some voice) :
    s.mix assertsOn core len allocOk submitOk =
      some { s.provision (len % (UINT_MOD : Int)).toNat
          ((len % (UINT_MOD : Int)).toNat / s.mFrameSize * s.mFrameSize) allocOk with
        mDevice := (s.provision (len % (UINT_MOD : Int)).toNat
          ((len % (UINT_MOD : Int)).toNat / s.mFrameSize * s.mFrameSize) allocOk).mDevice.renderSamples
            ((len % (UINT_MOD : Int)).toNat / s.mFrameSize)
            ((s.provision (len % (UINT_MOD : Int)).toNat
              ((len % (UINT_MOD : Int)).toNat / s.mFrameSize * s.mFrameSize)
                allocOk).mDevice.channelsFromFmt core)
        source := some (if submitOk then
          { voice with submitted :=
              ((len % (UINT_MOD : Int)).toNat / s.mFrameSize * s.mFrameSize) :: voice.submitted }
          else voice) } := by
  have hv2 := XAudio2Backend.provision_source s (len % (UINT_MOD : Int)).toNat
      ((len % (UINT_MOD : Int)).toNat / s.mFrameSize * s.mFrameSize) allocOk
  rw [hv] at hv2
  have hassert : ¬ ((assertsOn && decide ((len % (UINT_MOD : Int)).toNat % s.mFrameSize ≠ 0))
      = true) := by
    cases assertsOn with
    | false => simp
    | true => simp [ha rfl]
  unfold XAudio2Backend.mix
  simp only [hf, if_false, hassert]
  rw [if_neg hb, hv2]
  simp

/-- With frames to render and a null render buffer after provisioning, `mix` has no result. -/
theorem XAudio2Backend.mix_null (assertsOn : Bool) (core : Core) (s : XAudio2Backend) (len : Int)
    (allocOk submitOk : Bool)
    (hb : (s.provision (len % (UINT_MOD : Int)).toNat
      ((len % (UINT_MOD : Int)).toNat / s.mFrameSize * s.mFrameSize) allocOk).mBuffer = none ∧
        (len % (UINT_MOD : Int)).toNat / s.mFrameSize ≠ 0) :
    s.mix assertsOn core len allocOk submitOk = none := by
  unfold XAudio2Backend.mix
  dsimp only
  split_ifs <;> rfl

/-- Once `open()` and then `reset()` have run, the device's own frame size is the backend's
`mFrameSize`, provided the engine's tables give one channel to mono and two to stereo and the
product does not wrap. -/
theorem XAudio2Backend.reset_open_frameSize (win32 : Bool) (core : Core) (s : XAudio2Backend)
    (name : Option String) (createOk : Bool)
    (hmono : ∀ o, core.ChannelsFromDevFmt DevFmtMono o = 1)
    (hstereo : ∀ o, core.ChannelsFromDevFmt DevFmtStereo o = 2)
    (hsz : core.BytesFromDevFmt DevFmtShort * 2 < UINT_MOD) :
    (XAudio2Backend.reset core (XAudio2Backend.open win32 core s name createOk)).1.mDevice.channelsFromFmt
        core *
      core.BytesFromDevFmt
        (XAudio2Backend.reset core (XAudio2Backend.open win32 core s name createOk)).1.mDevice.FmtType =
    (XAudio2Backend.reset core (XAudio2Backend.open win32 core s name createOk)).1.mFrameSize := by
  by_cases h : s.mDevice.FmtChans = DevFmtMono
  · have h1 : core.BytesFromDevFmt DevFmtShort % UINT_MOD = core.BytesFromDevFmt DevFmtShort :=
      Nat.mod_eq_of_lt (by omega)
    simp [XAudio2Backend.reset, XAudio2Backend.open, setDefaultWFXChannelOrder,
      DeviceBase.channelsFromFmt, h, hmono, h1]
  · have h2 : core.BytesFromDevFmt DevFmtShort * 2 % UINT_MOD =
        core.BytesFromDevFmt DevFmtShort * 2 := Nat.mod_eq_of_lt hsz
    simp [XAudio2Backend.reset, XAudio2Backend.open, setDefaultWFXChannelOrder,
      DeviceBase.channelsFromFmt, h, hstereo, Nat.mul_comm]
    rw [Nat.mul_comm 2, h2]

/-! ## Claims about `tick()` in `double` arithmetic and about `mix` -/

/-- C2 (as stated) fails: `sampleWebAudio` (cursor 0, 8192 Hz, so one block lasts one second)
ticked at the non-decreasing clock readings 0 and 1/2 submits a block in both ticks, although
the readings differ by less than one block duration. Every number of this run is a `double`, so
the run is the same in `double` arithmetic (`submitsAtD`) and with exact times (`submitsAt`). -/
theorem C2_counterexample :
    List.Pairwise (fun x y => x ≤ y) [(0 : ℚ), 1/2] ∧
    sampleWebAudio.submitsAt [0, 1/2] 0 = true ∧
    sampleWebAudio.submitsAt [0, 1/2] 1 = true ∧
    ¬ ((UPD_SIZE : ℚ) / (sampleWebAudio.mFrequency : ℚ) ≤ (1/2 : ℚ) - 0) ∧
    sampleWebAudio.submitsAtD [0, 1/2] 0 = true ∧
    sampleWebAudio.submitsAtD [0, 1/2] 1 = true ∧
    roundDouble ((UPD_SIZE : ℚ) / (sampleWebAudio.mFrequency : ℚ)) = 1 := by
  have h1 := roundDouble_one
  have h2 := roundDouble_three_halves
  refine ⟨by norm_num, ?_, ?_, ?_, ?_, ?_, ?_⟩
  · simp [WebAudioBackend.submitsAt, WebAudioBackend.ticks, WebAudioBackend.tickSubmitted,
      WebAudioBackend.tick, sampleWebAudio, WebAudioBackend.open, WebAudioBackend.construct,
      UPD_SIZE, UINT_MOD, DeviceBase.renderSamples]
  · simp [WebAudioBackend.submitsAt, WebAudioBackend.ticks, WebAudioBackend.tickSubmitted,
      WebAudioBackend.tick, sampleWebAudio, WebAudioBackend.open, WebAudioBackend.construct,
      UPD_SIZE, UINT_MOD, DeviceBase.renderSamples]
    norm_num
  · norm_num [sampleWebAudio, WebAudioBackend.open, UPD_SIZE, UINT_MOD]
  · simp [WebAudioBackend.submitsAtD, WebAudioBackend.ticksD, WebAudioBackend.tickSubmittedD,
      WebAudioBackend.tickD, sampleWebAudio, WebAudioBackend.open, WebAudioBackend.construct,
      UPD_SIZE, UINT_MOD, DeviceBase.renderSamples, h1]
  · simp [WebAudioBackend.submitsAtD, WebAudioBackend.ticksD, WebAudioBackend.tickSubmittedD,
      WebAudioBackend.tickD, sampleWebAudio, WebAudioBackend.open, WebAudioBackend.construct,
      UPD_SIZE, UINT_MOD, DeviceBase.renderSamples, h1]
    norm_num [h1, h2]
  · norm_num [sampleWebAudio, WebAudioBackend.open, UPD_SIZE, UINT_MOD, h1]

/-- C2 (as amended). In `double` arithmetic, whatever the starting cursor and the clock readings
(all of them doubles): when two ticks of a run both submit a block, the later one has a strictly
greater clock reading; and when a third, still later tick submits as well, its clock reading is
strictly greater than the `double` sum of the first one's clock reading and the block duration
`fTime`, the `double` quotient of `UPD_SIZE` and `mFrequency`. -/
theorem C2_submitting_ticks_advance (s : WebAudioBackend) (clocks : List ℚ) (i j : Nat)
    (a b : ℚ) (hij : i < j) (ha : clocks[i]? = some a) (hb : clocks[j]? = some b)
    (hm : roundDouble s.mTime = s.mTime) (hclk : ∀ c ∈ clocks, roundDouble c = c)
    (hi : s.submitsAtD clocks i = true) (hj : s.submitsAtD clocks j = true) :
    a < b ∧ ∀ (k : Nat) (c : ℚ), j < k → clocks[k]? = some c → s.submitsAtD clocks k = true →
      roundDouble (a + roundDouble ((UPD_SIZE : ℚ) / (s.mFrequency : ℚ))) < c := by
  obtain ⟨tj, uj, htj, _, hsj, _⟩ := WebAudioBackend.submitsAtD_spec s clocks j b hb hj
  obtain ⟨ti, hti, _, hfj, hlow, _⟩ :=
    WebAudioBackend.cursor_after_submitD s tj clocks i j a hm hclk hij ha hi htj
  have hfTj : tj.fTimeD = s.fTimeD := by unfold WebAudioBackend.fTimeD; rw [hfj]
  have hupj := WebAudioBackend.submitsD_upper tj b hsj
  rw [hfTj] at hupj
  have hlt : roundDouble (a + s.fTimeD) < roundDouble (b + s.fTimeD) := lt_of_le_of_lt hlow hupj
  have hab : a < b := by
    by_contra hcon
    have := roundDouble_mono (show b + s.fTimeD ≤ a + s.fTimeD by linarith [not_lt.mp hcon])
    linarith
  refine ⟨hab, ?_⟩
  intro k c hjk hc hk
  obtain ⟨tk, uk, htk, _, hsk, _⟩ := WebAudioBackend.submitsAtD_spec s clocks k c hc hk
  obtain ⟨tj2, htj2, _, hfk, _, hlow2⟩ :=
    WebAudioBackend.cursor_after_submitD s tk clocks j k b hm hclk hjk hb hj htk
  have hsame : tj2 = tj := by
    rw [htj] at htj2
    exact (Option.some.inj htj2).symm
  subst hsame
  have hfTk : tk.fTimeD = s.fTimeD := by unfold WebAudioBackend.fTimeD; rw [hfk]
  have hupk := WebAudioBackend.submitsD_upper tk c hsk
  rw [hfTk] at hupk
  have h1 : roundDouble (roundDouble (a + s.fTimeD) + s.fTimeD) ≤
      roundDouble (tj2.mTime + s.fTimeD) := roundDouble_mono (by linarith)
  have h2 : roundDouble (roundDouble (a + s.fTimeD) + s.fTimeD) < roundDouble (c + s.fTimeD) :=
    lt_of_le_of_lt (le_trans h1 hlow2) hupk
  show roundDouble (a + s.fTimeD) < c
  by_contra hcon
  have := roundDouble_mono
    (show c + s.fTimeD ≤ roundDouble (a + s.fTimeD) + s.fTimeD by linarith [not_lt.mp hcon])
  linarith

/-- Witness for C2 (as amended): `sampleWebAudio` ticked at 0, 1/2 and 3/2 submits each
time. -/
theorem C2_witness :
    (0 : ℚ) < 1/2 ∧
    roundDouble ((0 : ℚ) + roundDouble ((UPD_SIZE : ℚ) / (sampleWebAudio.mFrequency : ℚ)))
      < 3/2 :=
  have h1 := roundDouble_one
  have h2 := roundDouble_three_halves
  have h3 := roundDouble_two
  have h4 := roundDouble_five_halves
  have h := C2_submitting_ticks_advance sampleWebAudio [0, 1/2, 3/2] 0 1 0 (1/2)
    (by decide) rfl rfl roundDouble_zero
    (by
      intro c hc
      simp only [List.mem_cons, List.mem_singleton, List.not_mem_nil, or_false] at hc
      rcases hc with h | h | h <;> rw [h]
      · exact roundDouble_zero
      · exact roundDouble_half
      · exact roundDouble_three_halves)
    (by simp [WebAudioBackend.submitsAtD, WebAudioBackend.ticksD, WebAudioBackend.tickSubmittedD,
      WebAudioBackend.tickD, sampleWebAudio, WebAudioBackend.open, WebAudioBackend.construct,
      UPD_SIZE, UINT_MOD, DeviceBase.renderSamples, h1])
    (by simp [WebAudioBackend.submitsAtD, WebAudioBackend.ticksD, WebAudioBackend.tickSubmittedD,
      WebAudioBackend.tickD, sampleWebAudio, WebAudioBackend.open, WebAudioBackend.construct,
      UPD_SIZE, UINT_MOD, DeviceBase.renderSamples, h1]
        norm_num [h1, h2])
  ⟨h.1, h.2 2 (3/2) (by decide) rfl
    (by simp [WebAudioBackend.submitsAtD, WebAudioBackend.ticksD, WebAudioBackend.tickSubmittedD,
      WebAudioBackend.tickD, sampleWebAudio, WebAudioBackend.open, WebAudioBackend.construct,
      UPD_SIZE, UINT_MOD, DeviceBase.renderSamples, h1]
        norm_num [h1, h2, h3, h4])⟩

/-- C3 (as stated) fails: `sampleWebAudio` after `stop()`, with no later `start()`, ticked at
clock reading 0 renders one block of `UPD_SIZE` stereo frames from the device and starts one
buffer source on the (suspended) audio context. Every number of this run is a `double`, so the
tick is the same in `double` arithmetic (`tickD`) and with exact times (`tick`). -/
theorem C3_counterexample :
    sampleWebAudio.stop.tickSubmitted 0 = true ∧
    (sampleWebAudio.stop.tick 0).map (fun t => t.mDevice.renderLog) = some [(UPD_SIZE, 2)] ∧
    (sampleWebAudio.stop.tick 0).map
        (fun t => t.WebAudio_ALSoft.map fun c => (c.suspended, c.sources)) =
      some (some (true, [⟨2, UPD_SIZE, 8192, 0⟩])) ∧
    sampleWebAudio.stop.tickSubmittedD 0 = true ∧
    (sampleWebAudio.stop.tickD 0).map (fun t => t.mDevice.renderLog) = some [(UPD_SIZE, 2)] ∧
    (sampleWebAudio.stop.tickD 0).map
        (fun t => t.WebAudio_ALSoft.map fun c => (c.suspended, c.sources)) =
      some (some (true, [⟨2, UPD_SIZE, 8192, 0⟩])) := by
  have h1 := roundDouble_one
  refine ⟨?_, ?_, ?_, ?_, ?_, ?_⟩
  · simp [WebAudioBackend.tickSubmitted, WebAudioBackend.stop,
      WebAudioBackend.tick, sampleWebAudio, WebAudioBackend.open, WebAudioBackend.construct,
      UPD_SIZE, UINT_MOD, DeviceBase.renderSamples]
  · simp [WebAudioBackend.stop, sampleDevice,
      WebAudioBackend.tick, sampleWebAudio, WebAudioBackend.open, WebAudioBackend.construct,
      UPD_SIZE, UINT_MOD, DeviceBase.renderSamples]
  · simp [WebAudioBackend.stop,
      WebAudioBackend.tick, sampleWebAudio, WebAudioBackend.open, WebAudioBackend.construct,
      UPD_SIZE, UINT_MOD, DeviceBase.renderSamples]
  · simp [WebAudioBackend.tickSubmittedD, WebAudioBackend.stop,
      WebAudioBackend.tickD, sampleWebAudio, WebAudioBackend.open, WebAudioBackend.construct,
      UPD_SIZE, UINT_MOD, DeviceBase.renderSamples, h1]
  · simp [WebAudioBackend.stop, sampleDevice,
      WebAudioBackend.tickD, sampleWebAudio, WebAudioBackend.open, WebAudioBackend.construct,
      UPD_SIZE, UINT_MOD, DeviceBase.renderSamples, h1]
  · simp [WebAudioBackend.stop,
      WebAudioBackend.tickD, sampleWebAudio, WebAudioBackend.open, WebAudioBackend.construct,
      UPD_SIZE, UINT_MOD, DeviceBase.renderSamples, h1]

/-- C3 (as amended). `stop()` only suspends the audio context and `tick()` never reads that
flag: with a context in place, a positive rate and a `double` clock reading, a tick after
`stop()` does exactly what it would have done without `stop()`, so it renders and submits a
block exactly when the cursor, raised to the clock reading, is less than the `double` sum of the
reading and the block duration `fTime` (the `double` quotient of `UPD_SIZE` and `mFrequency`).
The tick returns, and any number of further ticks at the same clock reading (a suspended
context's clock stands still) leave the state as it is: they render and submit nothing. -/
theorem C3_tick_after_stop (s : WebAudioBackend) (a : ℚ) (ctx : AudioContext)
    (hctx : s.WebAudio_ALSoft = some ctx) (hf : 0 < s.mFrequency) (ha : roundDouble a = a) :
    s.stop.tickD a = (s.tickD a).map WebAudioBackend.stop ∧
    s.stop.tickSubmittedD a =
      decide ((if a > s.mTime then a else s.mTime) <
        roundDouble (a + roundDouble ((UPD_SIZE : ℚ) / (s.mFrequency : ℚ)))) ∧
    ∃ t, s.stop.tickD a = some t ∧ ∀ n : Nat, t.ticksD (List.replicate n a) = some t := by
  have hc2 : s.stop.WebAudio_ALSoft = some { ctx with suspended := true } := by
    simp [WebAudioBackend.stop, hctx]
  have hf2 : s.stop.mFrequency ≠ 0 := by
    have : s.stop.mFrequency = s.mFrequency := by simp [WebAudioBackend.stop, hctx]
    rw [this]
    exact Nat.pos_iff_ne_zero.mp hf
  obtain ⟨t, ht⟩ : ∃ t, s.stop.tickD a = some t :=
    ⟨_, WebAudioBackend.tickD_eq s.stop a _ hc2 hf2⟩
  refine ⟨WebAudioBackend.tickD_stop s a, ?_, t, ht, ?_⟩
  · have hiff := WebAudioBackend.tickSubmittedD_iff s.stop a
    have hsub : s.stop.submitsD a =
        decide ((if a > s.mTime then a else s.mTime) <
          roundDouble (a + roundDouble ((UPD_SIZE : ℚ) / (s.mFrequency : ℚ)))) := by
      simp [WebAudioBackend.submitsD, WebAudioBackend.raised, WebAudioBackend.fTimeD,
        WebAudioBackend.stop, hctx]
    rw [← hsub]
    cases hsb : s.stop.submitsD a with
    | true => exact hiff.mpr ⟨⟨t, ht⟩, hsb⟩
    | false =>
      cases hts : s.stop.tickSubmittedD a with
      | false => rfl
      | true =>
        have := (hiff.mp hts).2
        rw [hsb] at this
        exact this.symm
  · intro n
    obtain ⟨hfr, ctx2, hctx2⟩ := WebAudioBackend.tickD_keeps s.stop t a ht
    obtain ⟨h1, h2⟩ := WebAudioBackend.tickD_reaches s.stop t a ht ha
    exact WebAudioBackend.ticksD_fixed n t a ctx2 hctx2 (by rw [hfr]; exact hf2) h1 h2

/-- Witness for C3 (as amended): `sampleWebAudio` stopped and then ticked at clock reading
0. -/
theorem C3_witness :
    sampleWebAudio.stop.tickD 0 = (sampleWebAudio.tickD 0).map WebAudioBackend.stop ∧
    sampleWebAudio.stop.tickSubmittedD 0 =
      decide ((if (0 : ℚ) > sampleWebAudio.mTime then 0 else sampleWebAudio.mTime) <
        roundDouble (0 + roundDouble ((UPD_SIZE : ℚ) / (sampleWebAudio.mFrequency : ℚ)))) ∧
    ∃ t, sampleWebAudio.stop.tickD 0 = some t ∧
      ∀ n : Nat, t.ticksD (List.replicate n 0) = some t :=
  C3_tick_after_stop sampleWebAudio 0
    { sampleRate := 8192, suspended := false, sources := [] } rfl (by decide) roundDouble_zero

/-- C11 (as stated) fails in what it calls the number of bytes rendered. The backend that was
constructed and opened on `sampleDevice51` and not yet reset (a reachable state) has
`mFrameSize = 4` (16-bit stereo) and the recorded size 0, a multiple of 4. `mix(8)` allocates 8
bytes, submits `AudioBytes = 8` and asks the device for 2 frames of `channelsFromFmt() = 6`
channels; the device's samples are 4-byte floats, so 48 bytes are rendered, not
`(8 / 4) * 4 = 8`, into a buffer of 8 bytes. -/
theorem C11_counterexample :
    XAudio2Backend.Reachable true true sampleCore sampleXAudio2Unreset ∧
    0 < sampleXAudio2Unreset.mFrameSize ∧
    sampleXAudio2Unreset.mFrameSize ∣ sampleXAudio2Unreset.mBufferSize ∧
    sampleXAudio2Unreset.mBufferSize = 0 ∧
    (8 / sampleXAudio2Unreset.mFrameSize) * sampleXAudio2Unreset.mFrameSize = 8 ∧
    (sampleXAudio2Unreset.mix true sampleCore 8 true true).map
        (fun t => (t.mBufferSize, t.mBuffer, t.mDevice.renderLog,
          t.source.map fun v => v.submitted)) = some (8, some 8, [(2, 6)], some [8]) ∧
    sampleXAudio2Unreset.mDevice.renderedBytes sampleCore 2 6 = 48 ∧
    sampleXAudio2Unreset.mDevice.renderedBytes sampleCore 2 6 ≠
      (8 / sampleXAudio2Unreset.mFrameSize) * sampleXAudio2Unreset.mFrameSize := by
  refine ⟨?_, by decide, by decide, by decide, by decide, by decide, by decide, by decide⟩
  exact XAudio2Backend.Reachable.open _ none true
    (XAudio2Backend.Reachable.construct sampleDevice51 1 2)

/-- C11 (as amended). `XAudio2Backend::mix` grows its render buffer lazily. Take a frame size
`mFrameSize > 0`, a recorded size `mBufferSize` that is a multiple of it (0 at first), a byte
count `0 ≤ len` in the range of `int` (a multiple of the frame size where `assert` is compiled
in) and a source voice. `mix(len)` has no defined result when it has frames to render and the
buffer pointer is null (the allocation it makes fails, or it makes none and holds no buffer).
In every other case, `len = 0` on the first call included, it returns, and
* it calls the allocator if and only if the recorded size is smaller than `len`; then the
  recorded size becomes `(len / mFrameSize) * mFrameSize`, and the buffer has that length unless
  the allocation fails; otherwise both stay as they were;
* afterwards the recorded size is still a multiple of `mFrameSize`, is not smaller than before,
  and is at least `(len / mFrameSize) * mFrameSize`;
* `len / mFrameSize` frames of `channelsFromFmt()` channels are rendered from the device, and
  `(len / mFrameSize) * mFrameSize` is the `AudioBytes` of the buffer handed to the voice;
* the number of bytes rendered is `(len / mFrameSize) * mFrameSize` when the device's own frame
  size, `channelsFromFmt()` times the size of its sample type, equals `mFrameSize`. -/
theorem C11_mix_grows_buffer_lazily (assertsOn : Bool) (core : Core) (s : XAudio2Backend)
    (len : Int) (allocOk submitOk : Bool) (voice : IXAudio2SourceVoice)
    (hf : 0 < s.mFrameSize) (hmul : s.mFrameSize ∣ s.mBufferSize)
    (hlen0 : 0 ≤ len) (hlen1 : len < 2147483648)
    (hassert : assertsOn = true → len.toNat % s.mFrameSize = 0)
    (hv : s.source = some voice) :
    ((0 < len.toNat / s.mFrameSize ∧
        (if s.mBufferSize < len.toNat then allocOk = false else s.mBuffer = none)) →
      s.mix assertsOn core len allocOk submitOk = none) ∧
    (¬ (0 < len.toNat / s.mFrameSize ∧
        (if s.mBufferSize < len.toNat then allocOk = false else s.mBuffer = none)) →
      ∃ t, s.mix assertsOn core len allocOk submitOk = some t ∧
        (s.provisionCalls len.toNat (len.toNat / s.mFrameSize * s.mFrameSize) ≠ [] ↔
          s.mBufferSize < len.toNat) ∧
        (s.mBufferSize < len.toNat →
          t.mBufferSize = len.toNat / s.mFrameSize * s.mFrameSize ∧
          t.mBuffer =
            if allocOk then some (len.toNat / s.mFrameSize * s.mFrameSize) else none) ∧
        (¬ s.mBufferSize < len.toNat →
          t.mBufferSize = s.mBufferSize ∧ t.mBuffer = s.mBuffer) ∧
        t.mFrameSize = s.mFrameSize ∧
        s.mFrameSize ∣ t.mBufferSize ∧
        s.mBufferSize ≤ t.mBufferSize ∧
        len.toNat / s.mFrameSize * s.mFrameSize ≤ t.mBufferSize ∧
        t.mDevice.renderLog =
          (len.toNat / s.mFrameSize, s.mDevice.channelsFromFmt core) :: s.mDevice.renderLog ∧
        t.source = some (if submitOk then
          { voice with submitted :=
              (len.toNat / s.mFrameSize * s.mFrameSize) :: voice.submitted }
          else voice) ∧
        (s.mDevice.channelsFromFmt core * core.BytesFromDevFmt s.mDevice.FmtType =
            s.mFrameSize →
          s.mDevice.renderedBytes core (len.toNat / s.mFrameSize)
              (s.mDevice.channelsFromFmt core) = len.toNat / s.mFrameSize * s.mFrameSize)) := by
  have hu : (len % (UINT_MOD : Int)).toNat = len.toNat := by
    have : len % (UINT_MOD : Int) = len := by
      apply Int.emod_eq_of_lt hlen0
      simp only [UINT_MOD]
      omega
    rw [this]
  have hf0 : s.mFrameSize ≠ 0 := Nat.pos_iff_ne_zero.mp hf
  have hfloor : len.toNat / s.mFrameSize * s.mFrameSize ≤ len.toNat :=
    Nat.div_mul_le_self _ _
  have hbytes : s.mDevice.channelsFromFmt core * core.BytesFromDevFmt s.mDevice.FmtType =
      s.mFrameSize →
      s.mDevice.renderedBytes core (len.toNat / s.mFrameSize)
        (s.mDevice.channelsFromFmt core) = len.toNat / s.mFrameSize * s.mFrameSize := by
    intro h
    unfold DeviceBase.renderedBytes
    rw [Nat.mul_assoc, h]
  by_cases hlt : s.mBufferSize < len.toNat
  · have hp : s.provision len.toNat (len.toNat / s.mFrameSize * s.mFrameSize) allocOk =
        { s with mBufferSize := len.toNat / s.mFrameSize * s.mFrameSize
                 mBuffer := if allocOk then some (len.toNat / s.mFrameSize * s.mFrameSize)
                   else none } := by
      simp [XAudio2Backend.provision, hlt]
    constructor
    · rintro ⟨hs, hnull⟩
      rw [if_pos hlt] at hnull
      apply XAudio2Backend.mix_null
      rw [hu, hp]
      exact ⟨by simp [hnull], Nat.pos_iff_ne_zero.mp hs⟩
    · intro hno
      rw [if_pos hlt] at hno
      have hm := XAudio2Backend.mix_eq assertsOn core s len allocOk submitOk voice hf0
        (by rw [hu]; exact hassert)
        (by
          rw [hu, hp]
          rintro ⟨h1, h2⟩
          apply hno
          refine ⟨Nat.pos_of_ne_zero h2, ?_⟩
          cases allocOk with
          | false => rfl
          | true => simp at h1) hv
      rw [hu, hp] at hm
      refine ⟨_, hm, ?_, ?_, ?_, rfl, ?_, ?_, le_refl _, rfl, rfl, hbytes⟩
      · simp [XAudio2Backend.provisionCalls, hlt]
      · intro _; exact ⟨rfl, rfl⟩
      · intro h; exact absurd hlt h
      · exact Nat.dvd_mul_left _ _
      · show s.mBufferSize ≤ len.toNat / s.mFrameSize * s.mFrameSize
        obtain ⟨k, hk⟩ := hmul
        rw [hk, Nat.mul_comm]
        apply Nat.mul_le_mul_right
        rw [Nat.le_div_iff_mul_le hf]
        rw [hk, Nat.mul_comm] at hlt
        exact Nat.le_of_lt hlt
  · have hp : s.provision len.toNat (len.toNat / s.mFrameSize * s.mFrameSize) allocOk = s := by
      simp [XAudio2Backend.provision, hlt]
    constructor
    · rintro ⟨hs, hnull⟩
      rw [if_neg hlt] at hnull
      apply XAudio2Backend.mix_null
      rw [hu, hp]
      exact ⟨hnull, Nat.pos_iff_ne_zero.mp hs⟩
    · intro hno
      rw [if_neg hlt] at hno
      have hm := XAudio2Backend.mix_eq assertsOn core s len allocOk submitOk voice hf0
        (by rw [hu]; exact hassert)
        (by
          rw [hu, hp]
          rintro ⟨h1, h2⟩
          exact hno ⟨Nat.pos_of_ne_zero h2, h1⟩) hv
      rw [hu, hp] at hm
      refine ⟨_, hm, ?_, ?_, ?_, rfl, hmul, le_refl _, ?_, rfl, rfl, hbytes⟩
      · simp [XAudio2Backend.provisionCalls, hlt]
      · intro h; exact absurd h hlt
      · intro _; exact ⟨rfl, rfl⟩
      · show len.toNat / s.mFrameSize * s.mFrameSize ≤ s.mBufferSize
        exact le_trans hfloor (Nat.le_of_not_lt hlt)

/-- Witness for C11 (as amended): the sample backend after `open()` and `reset()` (frame size
4, the device publishing 16-bit stereo, nothing allocated yet) asked for 10 bytes with `assert`
compiled out: two frames, a new buffer of 8 bytes, 8 bytes rendered. -/
theorem C11_witness :
    ∃ t, (XAudio2Backend.reset sampleCore sampleXAudio2).1.mix false sampleCore 10 true true
        = some t ∧
      t.mBufferSize = 8 ∧ t.mBuffer = some 8 ∧ 4 ∣ t.mBufferSize ∧
      (XAudio2Backend.reset sampleCore sampleXAudio2).1.mBufferSize ≤ t.mBufferSize ∧
      t.mDevice.renderLog = [(2, 2)] ∧
      t.source = some ⟨⟨2, 44100, 176400, 4, 16⟩, false, [8]⟩ ∧
      (XAudio2Backend.reset sampleCore sampleXAudio2).1.mDevice.renderedBytes sampleCore 2 2
        = 8 := by
  obtain ⟨t, hm, _, hgrow, _, _, hdvd, hmono, _, hlog, hsrc, hbytes⟩ :=
    (C11_mix_grows_buffer_lazily false sampleCore
      (XAudio2Backend.reset sampleCore sampleXAudio2).1 10 true true
      ⟨⟨2, 44100, 176400, 4, 16⟩, false, []⟩ (by decide) (by decide) (by decide) (by decide)
      (by decide) rfl).2 (by decide)
  exact ⟨t, hm, (hgrow (by decide)).1, (hgrow (by decide)).2, hdvd, hmono, hlog, hsrc,
    hbytes (by decide)⟩

/-- C12 (as stated) fails in `double` arithmetic, where a block can start less than one block
duration after the one before it. `sampleWebAudio48k` (cursor 0, 48000 Hz) ticked at the clock
readings 0 and 1/8 submits twice, at 0 and at the `double` quotient `8192.0 / 48000`, which is
less than `UPD_SIZE / mFrequency = 64 / 375`. Ticked at 1/2 and 5/8 instead it submits twice,
at 1/2 and at the `double` sum `0.5 + 8192.0 / 48000`, which is less than 1/2 plus
`UPD_SIZE / mFrequency` and also less than 1/2 plus the `double` quotient `8192.0 / 48000`. -/
theorem C12_counterexample :
    (sampleWebAudio48k.ticksD [0, 1/8]).map (fun t => t.started.map fun b => b.startAt) =
      some [6148914691236517 / 36028797018963968, 0] ∧
    ¬ ((0 : ℚ) + (UPD_SIZE : ℚ) / (sampleWebAudio48k.mFrequency : ℚ) ≤
        6148914691236517 / 36028797018963968) ∧
    (sampleWebAudio48k.ticksD [1/2, 5/8]).map (fun t => t.started.map fun b => b.startAt) =
      some [6040828300179625 / 9007199254740992, 1/2] ∧
    ¬ ((1/2 : ℚ) + (UPD_SIZE : ℚ) / (sampleWebAudio48k.mFrequency : ℚ) ≤
        6040828300179625 / 9007199254740992) ∧
    ¬ ((1/2 : ℚ) + roundDouble ((UPD_SIZE : ℚ) / (sampleWebAudio48k.mFrequency : ℚ)) ≤
        6040828300179625 / 9007199254740992) := by
  have hc := roundDouble_fTime_48k
  have hc2 := roundDouble_fTime_48k_idem
  have hm := roundDouble_half_plus_fTime_48k
  have hg := guard_eighth_48k
  have hg2 := guard_five_eighths_48k
  refine ⟨?_, ?_, ?_, ?_, ?_⟩
  · simp [WebAudioBackend.ticksD, WebAudioBackend.started,
      WebAudioBackend.tickD, sampleWebAudio48k, WebAudioBackend.open, WebAudioBackend.construct,
      UPD_SIZE, UINT_MOD, DeviceBase.renderSamples]
    norm_num [hc, hc2, hg]
  · norm_num [sampleWebAudio48k, WebAudioBackend.open, UPD_SIZE, UINT_MOD]
  · simp [WebAudioBackend.ticksD, WebAudioBackend.started,
      WebAudioBackend.tickD, sampleWebAudio48k, WebAudioBackend.open, WebAudioBackend.construct,
      UPD_SIZE, UINT_MOD, DeviceBase.renderSamples]
    norm_num [hc, hm, hg2]
  · norm_num [sampleWebAudio48k, WebAudioBackend.open, UPD_SIZE, UINT_MOD]
  · norm_num [sampleWebAudio48k, WebAudioBackend.open, UPD_SIZE, UINT_MOD, hc]

/-- C12 (as amended). In `double` arithmetic blocks are never scheduled in the past, and never
before the cursor the previous block left behind. From any state with an audio context, a
positive rate and a `double` cursor, whatever the `double` clock readings `pre` and `a`: the run
`pre` and the tick at `a` after it return; the cursor never decreases; and when the tick at `a`
submits a block, its start time (the value passed to `audioSrc.start`) is the cursor raised to
`a`, is at least `a`, and for every block the run submitted before it, the previous one in
particular, is at least that block's start time and at least the `double` sum of that start
time and the block duration `fTime` (the `double` quotient of `UPD_SIZE` and `mFrequency`). A
tick that does not submit starts no source. -/
theorem C12_blocks_not_in_past_not_before_cursor (s : WebAudioBackend) (pre : List ℚ) (a : ℚ)
    (ctx : AudioContext) (hctx : s.WebAudio_ALSoft = some ctx) (hf : 0 < s.mFrequency)
    (hm : roundDouble s.mTime = s.mTime) (hclk : ∀ c ∈ pre ++ [a], roundDouble c = c) :
    ∃ u t new, s.ticksD pre = some u ∧ u.tickD a = some t ∧ s.ticksD (pre ++ [a]) = some t ∧
      u.started = new ++ s.started ∧
      s.mTime ≤ u.mTime ∧ u.mTime ≤ t.mTime ∧
      (u.tickSubmittedD a = false → t.started = u.started) ∧
      (u.tickSubmittedD a = true → ∃ b, t.started = b :: u.started ∧
        b.startAt = (if a > u.mTime then a else u.mTime) ∧
        a ≤ b.startAt ∧
        ∀ p ∈ new, p.startAt ≤ b.startAt ∧
          roundDouble (p.startAt + roundDouble ((UPD_SIZE : ℚ) / (s.mFrequency : ℚ)))
            ≤ b.startAt) := by
  have hf0 : s.mFrequency ≠ 0 := Nat.pos_iff_ne_zero.mp hf
  have hpre : ∀ c ∈ pre, roundDouble c = c := fun c hc => hclk c (by simp [hc])
  have ha : roundDouble a = a := hclk a (by simp)
  obtain ⟨u, hu⟩ := WebAudioBackend.ticksD_returns pre s hf0 ⟨ctx, hctx⟩
  obtain ⟨hfu, hmono, hdu⟩ := WebAudioBackend.ticksD_mono pre s u hm hpre hu
  obtain ⟨new, hnew, hall⟩ := WebAudioBackend.ticksD_started pre s u hm hpre hu
  obtain ⟨t, hrun⟩ := WebAudioBackend.ticksD_returns (pre ++ [a]) s hf0 ⟨ctx, hctx⟩
  have ht : u.tickD a = some t := by
    have h := hrun
    rw [WebAudioBackend.ticksD_append, hu] at h
    simp only [Option.some_bind, WebAudioBackend.ticksD] at h
    cases hta : u.tickD a with
    | none => simp [hta] at h
    | some t2 =>
      simp only [hta, Option.some_bind, Option.some.injEq] at h
      rw [h]
  have hst := WebAudioBackend.tickD_started u t a ht
  have hiff := WebAudioBackend.tickSubmittedD_iff u a
  refine ⟨u, t, new, hu, ht, hrun, hnew, hmono, WebAudioBackend.tickD_mono u t a ht hdu ha, ?_, ?_⟩
  · intro hno
    have hs : u.submitsD a = false := by
      cases hsb : u.submitsD a with
      | false => rfl
      | true =>
        have := hiff.mpr ⟨⟨t, ht⟩, hsb⟩
        rw [hno] at this
        exact absurd this (by decide)
    rw [hs] at hst
    simpa using hst
  · intro hyes
    have hs := (hiff.mp hyes).2
    rw [hs] at hst
    simp only [if_true] at hst
    obtain ⟨hra, hru⟩ := WebAudioBackend.raised_ge u a
    refine ⟨_, hst, rfl, hra, ?_⟩
    intro p hp
    obtain ⟨h1, h2⟩ := hall p hp
    simp only [WebAudioBackend.fTimeD] at h2
    constructor
    · show p.startAt ≤ u.raised a
      linarith
    · show roundDouble (p.startAt + roundDouble ((UPD_SIZE : ℚ) / (s.mFrequency : ℚ)))
        ≤ u.raised a
      linarith

/-- Witness for C12 (as amended): `sampleWebAudio` ticked at 0 and 1/2, then at 3/2. -/
theorem C12_witness :
    ∃ u t new, sampleWebAudio.ticksD [0, 1/2] = some u ∧ u.tickD (3/2) = some t ∧
      sampleWebAudio.ticksD ([0, 1/2] ++ [3/2]) = some t ∧
      u.started = new ++ sampleWebAudio.started ∧
      sampleWebAudio.mTime ≤ u.mTime ∧ u.mTime ≤ t.mTime ∧
      (u.tickSubmittedD (3/2) = false → t.started = u.started) ∧
      (u.tickSubmittedD (3/2) = true → ∃ b, t.started = b :: u.started ∧
        b.startAt = (if (3/2 : ℚ) > u.mTime then 3/2 else u.mTime) ∧
        (3/2 : ℚ) ≤ b.startAt ∧
        ∀ p ∈ new, p.startAt ≤ b.startAt ∧
          roundDouble (p.startAt +
            roundDouble ((UPD_SIZE : ℚ) / (sampleWebAudio.mFrequency : ℚ))) ≤ b.startAt) :=
  C12_blocks_not_in_past_not_before_cursor sampleWebAudio [0, 1/2] (3/2)
    { sampleRate := 8192, suspended := false, sources := [] } rfl (by decide) roundDouble_zero
    (by
      intro c hc
      simp only [List.cons_append, List.nil_append, List.mem_cons, List.mem_singleton,
        List.not_mem_nil, or_false] at hc
      rcases hc with h | h | h <;> rw [h]
      · exact roundDouble_zero
      · exact roundDouble_half
      · exact roundDouble_three_halves)

end OpenALSoft
